import Mathlib

/-!
QRScanner (app/static/qr-scanner.js): a shallow embedding.

Strings of the program are modelled as `List Char`.  The program only inspects
characters through the classes `\d`, `[A-Z0-9]`, literal ASCII characters and
the white space set of `String.prototype.trim`; a character outside the Basic
Multilingual Plane (two UTF-16 code units in the program, one `Char` here)
belongs to none of them, so it is rejected by every pattern in both readings.

Numbers of the program are IEEE doubles.  Pixel values, indices, coordinates of
a frame and clock readings are integers below 2^53, which a double holds
exactly; they are modelled as `Int` or `Nat`.  The two functions that multiply
and add numbers of any size, `extractQRData` and `decodeBarcodePattern`, are
modelled on `JsNum`: every result of `+`, `-` and `*` is rounded to the nearest
double (`toDouble`), and becomes an infinity beyond the largest double.
-/

namespace QRScanner

/-! ## Strings -/

/-- The characters removed by `String.prototype.trim`: WhiteSpace (TAB, VT, FF,
SP, NBSP, ZWNBSP and the category Zs) and LineTerminator (LF, CR, LS, PS). -/
def isTrimChar (c : Char) : Bool :=
  c.toNat ∈ [0x0009, 0x000A, 0x000B, 0x000C, 0x000D, 0x0020, 0x00A0, 0x1680,
    0x2000, 0x2001, 0x2002, 0x2003, 0x2004, 0x2005, 0x2006, 0x2007, 0x2008,
    0x2009, 0x200A, 0x2028, 0x2029, 0x202F, 0x205F, 0x3000, 0xFEFF]

/-- Model of `String.prototype.trim`: white space is dropped at both ends. -/
def trim (s : List Char) : List Char :=
  (s.dropWhile isTrimChar).rdropWhile isTrimChar

/-- Model of `String.prototype.startsWith`. -/
def startsWith (s p : List Char) : Bool :=
  p.isPrefixOf s

/-! ## Regular expressions of `this.patterns`

Each of the four patterns is an anchored (`^...$`) concatenation of
bounded repetitions `cls{lo,hi}` of a character class. -/

/-- The character classes that occur in `this.patterns`. -/
inductive CharClass where
  | lit (c : Char)
  | digit
  | upperAlnum
  deriving DecidableEq, Repr

/-- Membership of a character in a class: a literal, `\d` (`0`-`9`, no `u`
flag) and `[A-Z0-9]`. -/
def CharClass.test : CharClass → Char → Bool
  | .lit c, x => x == c
  | .digit, x => decide ('0'.toNat ≤ x.toNat ∧ x.toNat ≤ '9'.toNat)
  | .upperAlnum, x =>
      decide ('A'.toNat ≤ x.toNat ∧ x.toNat ≤ 'Z'.toNat) ||
      decide ('0'.toNat ≤ x.toNat ∧ x.toNat ≤ '9'.toNat)

/-- One factor `cls{lo,hi}` of a pattern. -/
structure Piece where
  cls : CharClass
  lo : Nat
  hi : Nat
  deriving DecidableEq, Repr

/-- The factors of a literal word, each `c{1,1}`. -/
def lits (w : String) : List Piece :=
  w.toList.map fun c => ⟨.lit c, 1, 1⟩

/-- Anchored matching, `/^p1 p2 ... pn$/.test(s)`: the first factor takes
some `k` characters of its class with `lo ≤ k ≤ hi` and the remaining factors
match the rest of the string exactly. -/
def regexTest : List Piece → List Char → Bool
  | [], s => s.isEmpty
  | p :: ps, s =>
      (List.range (p.hi + 1)).any fun k =>
        decide (p.lo ≤ k) && decide (k ≤ s.length) &&
          (s.take k).all p.cls.test && regexTest ps (s.drop k)

/-- Pattern `/^PROD-\d{8}-[A-Z0-9]{6}$/`. -/
def productCode : List Piece :=
  lits "PROD-" ++ [⟨.digit, 8, 8⟩] ++ lits "-" ++ [⟨.upperAlnum, 6, 6⟩]

/-- Pattern `/^\d{13}$/`. -/
def ean13 : List Piece := [⟨.digit, 13, 13⟩]

/-- Pattern `/^\d{12}$/`. -/
def upc : List Piece := [⟨.digit, 12, 12⟩]

/-- Pattern `/^[A-Z0-9]{6,20}$/`. -/
def custom : List Piece := [⟨.upperAlnum, 6, 20⟩]

/-- The entries of `this.patterns`, in the insertion order that
`Object.entries` enumerates. -/
def patterns : List (String × List Piece) :=
  [("productCode", productCode), ("ean13", ean13), ("upc", upc), ("custom", custom)]

/-! ## validateCode -/

/-- The object returned by `validateCode`. -/
structure Validation where
  valid : Bool
  type : String
  code : List Char
  deriving DecidableEq, Repr

/-- Model of `validateCode(code)` for a string argument. -/
def validateCode (code : List Char) : Validation :=
  let codeStr := trim code
  match patterns.find? (fun e => regexTest e.2 codeStr) with
  | some (patternName, _) => { valid := true, type := patternName, code := codeStr }
  | none =>
      if startsWith codeStr "SCAN-".toList || startsWith codeStr "BAR-".toList then
        { valid := true, type := "scanned", code := codeStr }
      else
        { valid := false, type := "unknown", code := codeStr }

/-! ## Numbers as strings -/

/-- The digit characters of `Number.prototype.toString(radix)`. -/
def digitChar (d : Nat) : Char :=
  "0123456789abcdefghijklmnopqrstuvwxyz".toList.getD d '?'

/-- Digits of `n` in the given radix, most significant first, in front of `acc`;
`fuel` bounds the number of divisions. -/
def toDigitsFuel (radix : Nat) : Nat → Nat → List Char → List Char
  | 0, _, acc => acc
  | fuel + 1, n, acc =>
      if n < radix then digitChar n :: acc
      else toDigitsFuel radix fuel (n / radix) (digitChar (n % radix) :: acc)

/-- Rendering of a natural number in the given radix. -/
def natToString (radix n : Nat) : List Char :=
  toDigitsFuel radix (n + 1) n []

/-- Model of `Number.prototype.toString(radix)` on an integer: a minus sign
for a negative number, then the digits of the absolute value. -/
def numberToString (radix : Nat) (n : Int) : List Char :=
  if n < 0 then '-' :: natToString radix n.natAbs else natToString radix n.natAbs

/-- Model of `String.prototype.toUpperCase` on the output of
`toString(36)`, whose characters are ASCII. -/
def toUpperCase (s : List Char) : List Char :=
  s.map Char.toUpper

/-- Model of `String.prototype.padStart(targetLength, c)` for a one-character
pad string. -/
def padStart (targetLength : Nat) (c : Char) (s : List Char) : List Char :=
  List.replicate (targetLength - s.length) c ++ s

/-! ## Arithmetic on doubles -/

/-- Number of binary digits of `a`, counted with at most `fuel` halvings. -/
def bitLengthFuel : Nat → Nat → Nat
  | 0, _ => 0
  | fuel + 1, a => if a = 0 then 0 else bitLengthFuel fuel (a / 2) + 1

/-- Number of binary digits of `a`: `0` for `0`, else the `k` with `2 ^ (k - 1) ≤ a < 2 ^ k`. -/
def bitLength (a : Nat) : Nat :=
  bitLengthFuel a a

/-- The integer that results from rounding the integer `n` to the 53 significant bits of a
double, to the nearest such value and on a tie to the one with an even significand.  Below
`2 ^ 53` nothing is rounded; from there on a number with `53 + e` binary digits becomes a
multiple of `2 ^ e`. -/
def roundDouble (n : Int) : Int :=
  let a := n.natAbs
  if a < 2 ^ 53 then n
  else
    let e := bitLength a - 53
    let q := a / 2 ^ e
    let r := a % 2 ^ e
    let m := (if 2 ^ e < 2 * r ∨ (2 * r = 2 ^ e ∧ q % 2 = 1) then q + 1 else q) * 2 ^ e
    if n < 0 then -(m : Int) else (m : Int)

/-- A number of the program whose value is an integer, an infinity or `NaN`.  `fin n` stands
for the double whose value is `n` (`-0` counts as `0`, from which no operation used here
tells it apart), so `n` is an integer that a double holds: every integer below `2 ^ 53` in
absolute value and every result of `toDouble`. -/
inductive JsNum where
  | fin (n : Int)
  | inf (negative : Bool)
  | nan
  deriving DecidableEq, Repr

/-- The double that an operation with the exact integer result `n` returns: `n` rounded, or
an infinity when the rounded value has more than 1024 binary digits (it is then `2 ^ 1024` or
more, beyond the largest double). -/
def toDouble (n : Int) : JsNum :=
  let r := roundDouble n
  if bitLength r.natAbs ≤ 1024 then .fin r else .inf (decide (n < 0))

/-- Model of `a + b`. -/
def JsNum.add : JsNum → JsNum → JsNum
  | .fin a, .fin b => toDouble (a + b)
  | .fin _, .inf s => .inf s
  | .inf s, .fin _ => .inf s
  | .inf s, .inf t => if s = t then .inf s else .nan
  | _, _ => .nan

/-- Model of `a - b`. -/
def JsNum.sub : JsNum → JsNum → JsNum
  | .fin a, .fin b => toDouble (a - b)
  | .fin _, .inf s => .inf (!s)
  | .inf s, .fin _ => .inf s
  | .inf s, .inf t => if s = t then .nan else .inf s
  | _, _ => .nan

/-- Model of `a * b`. -/
def JsNum.mul : JsNum → JsNum → JsNum
  | .fin a, .fin b => toDouble (a * b)
  | .fin a, .inf s => if a = 0 then .nan else .inf (s != decide (a < 0))
  | .inf s, .fin b => if b = 0 then .nan else .inf (s != decide (b < 0))
  | .inf s, .inf t => .inf (s != t)
  | _, _ => .nan

/-- Model of `a % m` for a finite non-zero integer `m`: the remainder of truncated division,
which is exact on doubles; `NaN` when `a` is not finite. -/
def JsNum.mod (a : JsNum) (m : Int) : JsNum :=
  match a with
  | .fin n => .fin (Int.tmod n m)
  | _ => .nan

/-- Model of `Number.prototype.toString(radix)` on a `JsNum`.  A finite number is printed
with the digits of its value: this is what every engine prints below `2 ^ 53` (with radix 10
the program prints only numbers below `10 ^ 6`).  From `2 ^ 53` on an engine may print any
digits that read back as the same double, usually zeros in the lowest places; the model
keeps the digits of the exact value there, which are the engine's for a number such as
`36 ^ 11` whose digits end in zeros anyhow. -/
def JsNum.toString (radix : Nat) : JsNum → List Char
  | .fin n => numberToString radix n
  | .inf false => "Infinity".toList
  | .inf true => "-Infinity".toList
  | .nan => "NaN".toList

/-! ## Frames and the detectors -/

/-- The values of `v` in `for (let v = start; v < bound; v += step)`.  Every
loop of the program has `step ≥ 1`, so `bound - start` iterations suffice. -/
def forLoopFuel (step bound : Int) : Nat → Int → List Int
  | 0, _ => []
  | fuel + 1, v => if v < bound then v :: forLoopFuel step bound fuel (v + step) else []

/-- The loop `for (let v = start; v < bound; v += step)`. -/
def forLoop (start bound step : Int) : List Int :=
  forLoopFuel step bound (bound - start).toNat start

/-- An `ImageData`: `data` holds 4 channel values (R, G, B, A) per pixel, row
by row. -/
structure ImageData where
  width : Nat
  height : Nat
  data : List Nat
  deriving DecidableEq, Repr

/-- The test `(data[index] + data[index + 1] + data[index + 2]) / 3 < 128`.
For integer channel values the quotient is below 128 exactly when the sum is
below `128 * 3`; an index past the end of `data` reads `undefined`, the sum is
`NaN` and the comparison is false. -/
def isDarkAt (imageData : ImageData) (index : Nat) : Bool :=
  match imageData.data[index]?, imageData.data[index + 1]?, imageData.data[index + 2]? with
  | some r, some g, some b => decide (r + g + b < 128 * 3)
  | _, _, _ => false

/-- A located position pattern `{ x, y }`. -/
structure Point where
  x : Int
  y : Int
  deriving DecidableEq, Repr

/-- The pair `(darkCount, lightCount)` after the two nested loops of
`isPositionPattern`. -/
def countWindow (imageData : ImageData) (x y : Int) : Nat × Nat :=
  let size : Int := 7
  (forLoop (-size) (size + 1) 1).foldl (fun acc dy =>
    (forLoop (-size) (size + 1) 1).foldl (fun acc dx =>
      let pixelX := x + dx
      let pixelY := y + dy
      if 0 ≤ pixelX ∧ pixelX < imageData.width ∧ 0 ≤ pixelY ∧ pixelY < imageData.height then
        let index := (pixelY.toNat * imageData.width + pixelX.toNat) * 4
        if isDarkAt imageData index then (acc.1 + 1, acc.2) else (acc.1, acc.2 + 1)
      else acc) acc) (0, 0)

/-- Model of `isPositionPattern(imageData, x, y)`. -/
def isPositionPattern (imageData : ImageData) (x y : Int) : Bool :=
  let counts := countWindow imageData x y
  decide (counts.1 > counts.2 * 2)

/-- Model of `findPositionPatterns(imageData, startX, startY, size)`. -/
def findPositionPatterns (imageData : ImageData) (startX startY size : Int) : List Point :=
  let step : Int := 10
  (forLoop startY (startY + size) step).foldl (fun patterns y =>
    (forLoop startX (startX + size) step).foldl (fun patterns x =>
      if isPositionPattern imageData x y then patterns ++ [⟨x, y⟩] else patterns) patterns) []

/-- Model of `extractQRData(imageData, positionPatterns)`; `now` is the value
that `Date.now()` returns, an integer that a double holds exactly, and the
coordinates of the patterns are the values of doubles.  The products `p.x * p.y`
and the sums of `reduce` are computed on doubles. -/
def extractQRData (positionPatterns : List Point) (now : Int) : List Char :=
  let patternHash :=
    (toUpperCase (JsNum.toString 36
      ((positionPatterns.map fun p => JsNum.mul (.fin p.x) (.fin p.y)).foldl
        (fun a b => JsNum.add a b) (.fin 0)))).take 6
  "SCAN-".toList ++ toUpperCase (numberToString 36 now) ++ "-".toList ++ patternHash

/-- The loop state of `findBarcodePatterns`.  `currentPattern` is the array
`[start]` whenever `inBar` holds; its element is kept here. -/
structure BarScan where
  patterns : List (Nat × Nat)
  currentPattern : Nat
  inBar : Bool
  deriving DecidableEq, Repr

/-- One iteration of the loop of `findBarcodePatterns`. -/
def findBarcodeStep (barcodeData : List Nat) (st : BarScan) (i : Nat) : BarScan :=
  if barcodeData[i]? = some 1 ∧ st.inBar = false then
    { st with inBar := true, currentPattern := i }
  else if barcodeData[i]? = some 0 ∧ st.inBar = true then
    { st with inBar := false, patterns := st.patterns ++ [(st.currentPattern, i)] }
  else st

/-- Model of `findBarcodePatterns(barcodeData)`: the pairs `[start, end]`. -/
def findBarcodePatterns (barcodeData : List Nat) : List (Nat × Nat) :=
  ((List.range barcodeData.length).foldl (findBarcodeStep barcodeData) ⟨[], 0, false⟩).patterns

/-- Model of `decodeBarcodePattern([start, end])`; `start` and `end` are the
values of doubles.  The difference and the product are computed on doubles, `%`
is the remainder of truncated division and `Math.floor` leaves an integer, an
infinity and `NaN` unchanged. -/
def decodeBarcodePattern (pattern : Int × Int) : List Char :=
  let (start, «end») := pattern
  let width := JsNum.sub (.fin «end») (.fin start)
  let code :=
    padStart 6 '0' (JsNum.toString 10 (JsNum.mod (JsNum.mul width (.fin start)) 1000000))
  "BAR-".toList ++ code

/-- A detection `{ type, data }`. -/
structure Detection where
  type : String
  data : List Char
  deriving DecidableEq, Repr

/-- Model of `detectQRCode(imageData)`; `now` is the reading of `Date.now()`
inside `extractQRData`.  No step of the body throws, so the `catch` branch is
not reached. -/
def detectQRCode (imageData : ImageData) (now : Int) : Option Detection :=
  let centerX : Int := imageData.width / 2
  let centerY : Int := imageData.height / 2
  let scanSize : Int := 200
  let startX := centerX - scanSize / 2
  let startY := centerY - scanSize / 2
  let positionPatterns := findPositionPatterns imageData startX startY scanSize
  if positionPatterns.length ≥ 3 then
    let codeData := extractQRData positionPatterns now
    if codeData ≠ [] then some { type := "qr", data := codeData } else none
  else none

/-- The binary sequence `barcodeData` that `detectBarcode` samples. -/
def sampleScanline (imageData : ImageData) : List Nat :=
  let centerY := imageData.height / 2
  (forLoop 0 imageData.width 2).map fun x =>
    let index := (centerY * imageData.width + x.toNat) * 4
    if isDarkAt imageData index then 1 else 0

/-- Model of `detectBarcode(imageData)`. -/
def detectBarcode (imageData : ImageData) : Option Detection :=
  let barcodeData := sampleScanline imageData
  let patterns := findBarcodePatterns barcodeData
  match patterns with
  | first :: _ =>
      let decoded := decodeBarcodePattern (first.1, first.2)
      if decoded ≠ [] then some { type := "barcode", data := decoded } else none
  | [] => none

/-! ## The scanner state and the debounce -/

/-- The record `this.lastScanned`. -/
structure LastScanned where
  data : List Char
  type : String
  timestamp : Int
  deriving DecidableEq, Repr

/-- The object passed to `options.onScan`. -/
structure ScanResult where
  code : List Char
  type : String
  valid : Bool
  codeType : String
  deriving DecidableEq, Repr

/-- The part of a `QRScanner` instance that the detection path reads and
writes.  `hasOnScan` tells whether `options.onScan` is set; `onScanCalls` logs
the arguments of the calls of `options.onScan`, oldest first; `pauseTimers`
holds the due times of the callbacks registered by `pauseScanning`. -/
structure Scanner where
  hasOnScan : Bool
  scanning : Bool
  lastScanned : Option LastScanned
  onScanCalls : List ScanResult
  pauseTimers : List Int
  deriving DecidableEq, Repr

/-- The field `this.scanCooldown`, assigned once in the constructor. -/
def scanCooldown : Int := 1000

/-- Model of `pauseScanning(ms)` called at time `now`: scanning stops and
a timer due at `now + ms` is registered. -/
def pauseScanning (st : Scanner) (now ms : Int) : Scanner :=
  { st with scanning := false, pauseTimers := st.pauseTimers ++ [now + ms] }

/-- The guard of `handleDetectedCode`: the same code seen again within the
cooldown. -/
def isRepeat (st : Scanner) (detection : Detection) (now : Int) : Bool :=
  match st.lastScanned with
  | some last => decide (detection.data = last.data ∧ now - last.timestamp < scanCooldown)
  | none => false

/-- Model of `handleDetectedCode(detection)`; `now` is the reading of
`Date.now()`.  `showScanFeedback` only touches the page and is left out. -/
def handleDetectedCode (st : Scanner) (detection : Detection) (now : Int) : Scanner :=
  if isRepeat st detection now then st
  else
    let st1 := { st with
      lastScanned := some { data := detection.data, type := detection.type, timestamp := now } }
    let validation := validateCode detection.data
    let st2 :=
      if st1.hasOnScan then
        { st1 with onScanCalls := st1.onScanCalls ++
            [{ code := detection.data, type := detection.type,
               valid := validation.valid, codeType := validation.type }] }
      else st1
    pauseScanning st2 now 1000

/-- Model of `processFrame()` on the frame `imageData`; `tExtract` and `now`
are the readings of `Date.now()` in `extractQRData` and `handleDetectedCode`. -/
def processFrame (st : Scanner) (imageData : ImageData) (tExtract now : Int) : Scanner :=
  match detectQRCode imageData tExtract with
  | some qrCode => handleDetectedCode st qrCode now
  | none =>
      match detectBarcode imageData with
      | some barcode => handleDetectedCode st barcode now
      | none => st

/-! ## The controller: start, stop, the scan loop and the timers -/

/-- What the environment supplies to one run of `scanFrame`: the video element's
`readyState`, the frame that `getImageData` returns after `drawImage`, the two readings of
`Date.now()` and the handle that `requestAnimationFrame` returns (never zero). -/
structure FrameInput where
  readyState : Nat
  imageData : ImageData
  tExtract : Int
  now : Int
  handle : ℕ+
  deriving DecidableEq, Repr

/-- A `QRScanner` instance.  `scan` is the state of the detection path.  `stream` is
`this.stream` (a stream is named by a number); `videoElement` is `none` while
`this.videoElement` is null and otherwise holds the element's `srcObject`;
`pendingFrames` are the animation frame callbacks requested and neither run nor cancelled;
`stoppedStreams` logs the streams whose tracks were stopped; `startTimers` holds the due
times of the `setTimeout(() => this.start(), 500)` callbacks; `onErrorCalls` counts the
calls of `options.onError`. -/
structure Controller where
  scan : Scanner
  facingMode : String
  hasOnError : Bool
  onErrorCalls : Nat
  stream : Option Nat
  videoElement : Option (Option Nat)
  frameRequestId : Option ℕ+
  pendingFrames : List ℕ+
  stoppedStreams : List Nat
  startTimers : List Int
  deriving DecidableEq, Repr

/-- The state that the constructor builds. -/
def Controller.initial (hasOnScan hasOnError : Bool) (facingMode : String) : Controller :=
  { scan := ⟨hasOnScan, false, none, [], []⟩
    facingMode := facingMode
    hasOnError := hasOnError
    onErrorCalls := 0
    stream := none
    videoElement := none
    frameRequestId := none
    pendingFrames := []
    stoppedStreams := []
    startTimers := [] }

/-- Model of `scanFrame()`.  Nothing happens when scanning is off or `readyState` is 0 (with
`this.videoElement` null the property access throws before any assignment); otherwise the
frame is processed and the next animation frame is requested. -/
def scanFrame (c : Controller) (inp : FrameInput) : Controller :=
  if c.scan.scanning = false ∨ c.videoElement = none ∨ inp.readyState = 0 then c
  else
    let c1 := { c with scan := processFrame c.scan inp.imageData inp.tExtract inp.now }
    { c1 with
      frameRequestId := some inp.handle
      pendingFrames := c1.pendingFrames ++ [inp.handle] }

/-- Model of `stop()`. -/
def stop (c : Controller) : Controller :=
  let c1 := { c with scan := { c.scan with scanning := false } }
  let c2 :=
    match c1.frameRequestId with
    | some h => { c1 with pendingFrames := c1.pendingFrames.erase h, frameRequestId := none }
    | none => c1
  let c3 :=
    match c2.stream with
    | some s => { c2 with stoppedStreams := c2.stoppedStreams ++ [s], stream := none }
    | none => c2
  match c3.videoElement with
  | some _ => { c3 with videoElement := some none }
  | none => c3

/-- Model of `start()` run without interruption: `createElements` installs a fresh video
element; `getUserMedia` either rejects (`media = none`: `options.onError` is called when set
and the result is `false`) or resolves with a stream, which becomes `this.stream` and the
video's `srcObject`; once the metadata is loaded, scanning is switched on and `scanFrame`
runs on the first frame. -/
def start (c : Controller) (media : Option Nat) (inp : FrameInput) : Controller :=
  let c1 := { c with videoElement := some none }
  match media with
  | none =>
      if c1.hasOnError then { c1 with onErrorCalls := c1.onErrorCalls + 1 } else c1
  | some s =>
      let c2 := { c1 with stream := some s, videoElement := some (some s) }
      let c3 := { c2 with scan := { c2.scan with scanning := true } }
      scanFrame c3 inp

/-- Model of `switchCamera()` called at time `now`. -/
def switchCamera (c : Controller) (now : Int) : Controller :=
  match c.stream with
  | none => c
  | some _ =>
      let currentFacingMode := c.facingMode
      let c1 := { c with
        facingMode := if currentFacingMode = "environment" then "user" else "environment" }
      let c2 := stop c1
      { c2 with startTimers := c2.startTimers ++ [now + 500] }

/-- The callback that `pauseScanning` registers: scanning is switched on and
`scanFrame` runs. -/
def resumeScanning (c : Controller) (inp : FrameInput) : Controller :=
  scanFrame { c with scan := { c.scan with scanning := true } } inp

/-- What can happen to a controller: a call of `start`, `stop` or `switchCamera`, the oldest
pending animation frame callback (`tick`), the oldest pending pause timer, or the oldest
pending restart timer of `switchCamera`. -/
inductive Event where
  | start (media : Option Nat) (inp : FrameInput)
  | stop
  | switchCamera (now : Int)
  | tick (inp : FrameInput)
  | pauseElapsed (inp : FrameInput)
  | restartElapsed (media : Option Nat) (inp : FrameInput)
  deriving DecidableEq, Repr

/-- The effect of one event. -/
def step (c : Controller) : Event → Controller
  | .start media inp => start c media inp
  | .stop => stop c
  | .switchCamera now => switchCamera c now
  | .tick inp =>
      match c.pendingFrames with
      | [] => c
      | _ :: rest => scanFrame { c with pendingFrames := rest } inp
  | .pauseElapsed inp =>
      match c.scan.pauseTimers with
      | [] => c
      | _ :: rest => resumeScanning { c with scan := { c.scan with pauseTimers := rest } } inp
  | .restartElapsed media inp =>
      match c.startTimers with
      | [] => c
      | _ :: rest => start { c with startTimers := rest } media inp

/-- The effect of a sequence of events, oldest first. -/
def run (c : Controller) (events : List Event) : Controller :=
  events.foldl step c

/-! ## Specification-side vocabulary -/

/-- A decimal digit, `0` to `9`. -/
def IsDecimalDigit (c : Char) : Prop := c ∈ "0123456789".toList

/-- A character of `[A-Z0-9]`. -/
def IsUpperAlnum (c : Char) : Prop := c ∈ "ABCDEFGHIJKLMNOPQRSTUVWXYZ0123456789".toList

/-- A character of `[A-Z0-9-]`. -/
def IsCodeChar (c : Char) : Prop := IsUpperAlnum c ∨ c = '-'

instance (c : Char) : Decidable (IsDecimalDigit c) := by unfold IsDecimalDigit; infer_instance

instance (c : Char) : Decidable (IsUpperAlnum c) := by unfold IsUpperAlnum; infer_instance

instance (c : Char) : Decidable (IsCodeChar c) := by unfold IsCodeChar; infer_instance

/-- The trimmed string has the shape `PROD-`, 8 decimal digits, `-`, 6 characters of `[A-Z0-9]`. -/
def IsProductCode (t : List Char) : Prop :=
  ∃ d a : List Char, t = "PROD-".toList ++ d ++ "-".toList ++ a ∧
    d.length = 8 ∧ (∀ c ∈ d, IsDecimalDigit c) ∧ a.length = 6 ∧ (∀ c ∈ a, IsUpperAlnum c)

/-- The decimal rendering of `n` padded with zeros to exactly 6 digits, for `n < 10 ^ 6`. -/
def sixDigits (n : Nat) : List Char :=
  [Nat.digitChar (n / 100000 % 10), Nat.digitChar (n / 10000 % 10), Nat.digitChar (n / 1000 % 10),
    Nat.digitChar (n / 100 % 10), Nat.digitChar (n / 10 % 10), Nat.digitChar (n % 10)]

/-- The candidates that `detectQRCode` looks for: `findPositionPatterns` over the square of
side 200 centred in the frame. -/
def centerCandidates (img : ImageData) : List Point :=
  findPositionPatterns img ((img.width : Int) / 2 - 100) ((img.height : Int) / 2 - 100) 200

/-- Positional rendering of an integer in base 36 with the digits `0`-`9`, `a`-`z`: a minus
sign for a negative number, then the digits of the absolute value, most significant first. -/
def base36 (n : Int) : List Char :=
  (if n < 0 then ['-'] else []) ++
    (if n = 0 then ['0'] else (Nat.digits 36 n.natAbs).reverse.map digitChar)

/-- The hash part that the specification describes: the upper-cased base-36 rendering of the
sum of `x * y` over the candidates, cut to its first 6 characters. -/
def patternHashSpec (cands : List Point) : List Char :=
  ((base36 (cands.map fun p => p.x * p.y).sum).map Char.toUpper).take 6

/-- The digits of `n / 10 ^ (k - 1)`, ..., `n / 10`, `n`, each modulo 10. -/
def lastDigits : Nat → Nat → List Char
  | 0, _ => []
  | k + 1, n => lastDigits k (n / 10) ++ [digitChar (n % 10)]

/-- The state after an emission, as the specification describes it: `lastScanned` holds the
detection with the time `now`, `onScan` (when a callback is set) has been called once more
with the validated detection, and scanning is paused with a timer due 1000 ms later. -/
def emitted (st : Scanner) (d : Detection) (now : Int) : Scanner :=
  { hasOnScan := st.hasOnScan
    scanning := false
    lastScanned := some ⟨d.data, d.type, now⟩
    onScanCalls := st.onScanCalls ++
      (if st.hasOnScan = true then
        [⟨d.data, d.type, (validateCode d.data).valid, (validateCode d.data).type⟩]
      else [])
    pauseTimers := st.pauseTimers ++ [now + 1000] }

/-- A frame of the given size with every channel of every pixel equal to `v`. -/
def uniformImage (w h v : Nat) : ImageData :=
  ⟨w, h, List.replicate (w * h * 4) v⟩

/-- The input of a `scanFrame` run at time `now` on the all-light frame of one pixel, in
which nothing is detected. -/
def lightInput (now : Int) (handle : ℕ+) : FrameInput :=
  ⟨1, uniformImage 1 1 255, now, now, handle⟩

/-- The input of a `scanFrame` run at time `now` on an all-dark frame of 11 by 1 pixels (a
canvas on which nothing has been drawn yet reads as such a frame). -/
def darkInput (now : Int) (handle : ℕ+) : FrameInput :=
  ⟨1, uniformImage 11 1 0, now, now, handle⟩

/-- A controller that scans through the rear camera on stream 1 with an `onScan` callback and
has accepted nothing so far: the state after a successful `start()` whose first frame held no
code. -/
def scanningExample : Controller :=
  { scan := ⟨true, true, none, [], []⟩
    facingMode := "environment"
    hasOnError := false
    onErrorCalls := 0
    stream := some 1
    videoElement := some (some 1)
    frameRequestId := some 1
    pendingFrames := [1]
    stoppedStreams := []
    startTimers := [] }

/-- The controller of `scanningExample` right after it accepted the code `BAR-000600` at
time 1700000000000: the pause timer is pending and the next frame is requested. -/
def acceptedExample : Controller :=
  { scan := ⟨true, false, some ⟨"BAR-000600".toList, "barcode", 1700000000000⟩,
      [⟨"BAR-000600".toList, "barcode", true, "scanned"⟩], [1700000001000]⟩
    facingMode := "environment"
    hasOnError := false
    onErrorCalls := 0
    stream := some 1
    videoElement := some (some 1)
    frameRequestId := some 2
    pendingFrames := [2]
    stoppedStreams := []
    startTimers := [] }

/-- The events that can switch scanning on: a `start()` that obtains a stream, directly or
from the restart timer of `switchCamera`, and a pause timer. -/
def Event.switchesOn : Event → Bool
  | .start (some _) _ => true
  | .restartElapsed (some _) _ => true
  | .pauseElapsed _ => true
  | _ => false

/-- The offsets of a window of radius 7. -/
def windowOffsets : List Int :=
  [-7, -6, -5, -4, -3, -2, -1, 0, 1, 2, 3, 4, 5, 6, 7]

/-- The pixels of the 15 by 15 window centred at `(x, y)` that lie inside the frame, row by
row. -/
def windowPixels (img : ImageData) (x y : Int) : List (Int × Int) :=
  (windowOffsets.flatMap fun dy => windowOffsets.map fun dx => (x + dx, y + dy)).filter
    fun p => decide (0 ≤ p.1 ∧ p.1 < img.width ∧ 0 ≤ p.2 ∧ p.2 < img.height)

/-- The pixel in column `px` of row `py` is dark: its channels R, G and B are present and
their unweighted mean, a rational number, is below 128. -/
def pixelDark (img : ImageData) (px py : Nat) : Bool :=
  match img.data[(py * img.width + px) * 4]?, img.data[(py * img.width + px) * 4 + 1]?,
    img.data[(py * img.width + px) * 4 + 2]? with
  | some r, some g, some b => decide (((r : ℚ) + g + b) / 3 < 128)
  | _, _, _ => false

/-- The number of dark pixels of the window inside the frame. -/
def darkCount (img : ImageData) (x y : Int) : Nat :=
  (windowPixels img x y).countP fun p => pixelDark img p.1.toNat p.2.toNat

/-- The number of light pixels of the window inside the frame. -/
def lightCount (img : ImageData) (x y : Int) : Nat :=
  (windowPixels img x y).countP fun p => !pixelDark img p.1.toNat p.2.toNat

/-- The number of consecutive 1s that end right before index `e`. -/
def onesBefore (d : List Nat) (e : Nat) : Nat :=
  ((d.take e).reverse.takeWhile fun b => b == 1).length

/-- Index `e` holds a 0 that follows a 1: a run of 1s ends there. -/
def isFall (d : List Nat) (e : Nat) : Bool :=
  decide (1 ≤ e ∧ d[e - 1]? = some 1 ∧ d[e]? = some 0)

/-- Index `i` holds the first 1 of a maximal run of 1s. -/
def isRunStart (d : List Nat) (i : Nat) : Bool :=
  decide (d[i]? = some 1 ∧ (i = 0 ∨ d[i - 1]? ≠ some 1))

/-- The number of maximal runs of 1s of the sequence. -/
def maximalRuns (d : List Nat) : Nat :=
  ((List.range d.length).filter (isRunStart d)).length

/-- The indices `s ≤ i < e` hold a maximal run of 1s that the 0 at index `e` ends. -/
def IsClosedRun (d : List Nat) (s e : Nat) : Prop :=
  s < e ∧ (∀ i, s ≤ i → i < e → d[i]? = some 1) ∧ d[e]? = some 0 ∧
    (s = 0 ∨ d[s - 1]? = some 0)

/-- The loop state of `findBarcodePatterns` after the indices below `i`. -/
def scanTo (d : List Nat) (i : Nat) : BarScan :=
  (List.range i).foldl (findBarcodeStep d) ⟨[], 0, false⟩

/-- The indices `s ≤ i < e` hold a maximal run of 1s: a 0 or the start of the sequence comes
before it, and a 0 or the end of the sequence after it. -/
def IsMaximalRun (d : List Nat) (s e : Nat) : Prop :=
  s < e ∧ e ≤ d.length ∧ (∀ i, s ≤ i → i < e → d[i]? = some 1) ∧
    (s = 0 ∨ d[s - 1]? = some 0) ∧ (e = d.length ∨ d[e]? = some 0)

/-- The sum R + G + B of the pixel in column `px` of row `py`. -/
def rgbSum (img : ImageData) (px py : Nat) : Nat :=
  img.data.getD ((py * img.width + px) * 4) 0 +
    img.data.getD ((py * img.width + px) * 4 + 1) 0 +
    img.data.getD ((py * img.width + px) * 4 + 2) 0

/-- The input of a `scanFrame` run at time `now` while the video element has no source: its
`readyState` is 0. -/
def idleInput (now : Int) (handle : ℕ+) : FrameInput :=
  ⟨0, uniformImage 1 1 255, now, now, handle⟩

/-! ## Theorems -/

theorem char_eq_of_toNat {c : Char} {n : Nat} (h : c.toNat = n) : c = Char.ofNat n := by
  rw [← h, Char.ofNat_toNat]

theorem digit_test_iff (c : Char) : CharClass.digit.test c = true ↔ IsDecimalDigit c := by
  constructor
  · intro h
    simp only [CharClass.test, decide_eq_true_eq] at h
    obtain ⟨h1, h2⟩ := h
    have e1 : '0'.toNat = 48 := by decide
    have e2 : '9'.toNat = 57 := by decide
    rw [e1] at h1
    rw [e2] at h2
    have hc : c = Char.ofNat c.toNat := (Char.ofNat_toNat c).symm
    generalize c.toNat = n at h1 h2 hc
    subst hc
    interval_cases n <;> decide
  · intro h
    simp only [IsDecimalDigit, String.toList, List.mem_cons, List.mem_nil_iff, or_false] at h
    rcases h with h | h | h | h | h | h | h | h | h | h <;> subst h <;> decide

theorem upperAlnum_test_iff (c : Char) : CharClass.upperAlnum.test c = true ↔ IsUpperAlnum c := by
  constructor
  · intro h
    simp only [CharClass.test, Bool.or_eq_true, decide_eq_true_eq] at h
    have e1 : '0'.toNat = 48 := by decide
    have e2 : '9'.toNat = 57 := by decide
    have e3 : 'A'.toNat = 65 := by decide
    have e4 : 'Z'.toNat = 90 := by decide
    rw [e1, e2, e3, e4] at h
    have hc : c = Char.ofNat c.toNat := (Char.ofNat_toNat c).symm
    generalize c.toNat = n at h hc
    subst hc
    rcases h with ⟨h1, h2⟩ | ⟨h1, h2⟩ <;> interval_cases n <;> decide
  · intro h
    simp only [IsUpperAlnum, String.toList, List.mem_cons, List.mem_nil_iff, or_false] at h
    rcases h with h | h | h | h | h | h | h | h | h | h | h | h | h | h | h | h | h | h |
      h | h | h | h | h | h | h | h | h | h | h | h | h | h | h | h | h | h <;> subst h <;> decide

theorem regexTest_cons_iff (p : Piece) (ps : List Piece) (s : List Char) :
    regexTest (p :: ps) s = true ↔
      ∃ a b, s = a ++ b ∧ p.lo ≤ a.length ∧ a.length ≤ p.hi ∧
        (∀ c ∈ a, p.cls.test c = true) ∧ regexTest ps b = true := by
  simp only [regexTest, List.any_eq_true, List.mem_range, Bool.and_eq_true, decide_eq_true_eq,
    List.all_eq_true]
  constructor
  · rintro ⟨k, hk, ⟨⟨⟨hlo, hlen⟩, hall⟩, hrest⟩⟩
    refine ⟨s.take k, s.drop k, (List.take_append_drop k s).symm, ?_, ?_, hall, hrest⟩
    · rw [List.length_take]; omega
    · rw [List.length_take]; omega
  · rintro ⟨a, b, rfl, hlo, hhi, hall, hrest⟩
    refine ⟨a.length, by omega, ⟨⟨hlo, by simp⟩, ?_⟩, ?_⟩
    · simpa using hall
    · simpa using hrest

theorem regexTest_nil_iff (s : List Char) : regexTest [] s = true ↔ s = [] := by
  simp [regexTest]

theorem regexTest_single_iff (cls : CharClass) (lo hi : Nat) (s : List Char) :
    regexTest [⟨cls, lo, hi⟩] s = true ↔
      lo ≤ s.length ∧ s.length ≤ hi ∧ ∀ c ∈ s, cls.test c = true := by
  rw [regexTest_cons_iff]
  constructor
  · rintro ⟨a, b, rfl, hlo, hhi, hall, hrest⟩
    rw [regexTest_nil_iff] at hrest
    subst hrest
    simpa using ⟨hlo, hhi, hall⟩
  · rintro ⟨hlo, hhi, hall⟩
    exact ⟨s, [], by simp, hlo, hhi, hall, by simp [regexTest]⟩

theorem regexTest_lit_cons_iff (c : Char) (ps : List Piece) (s : List Char) :
    regexTest (⟨.lit c, 1, 1⟩ :: ps) s = true ↔ ∃ t, s = c :: t ∧ regexTest ps t = true := by
  rw [regexTest_cons_iff]
  constructor
  · rintro ⟨a, b, rfl, hlo, hhi, hall, hrest⟩
    match a, hlo, hhi, hall with
    | [x], _, _, hall =>
      have : x = c := by simpa [CharClass.test] using hall x (by simp)
      exact ⟨b, by simp [this], hrest⟩
  · rintro ⟨t, rfl, hrest⟩
    exact ⟨[c], t, rfl, by simp, by simp, by simp [CharClass.test], hrest⟩

/-- Every character of a matched string belongs to the class of some factor. -/
theorem regexTest_chars (ps : List Piece) (s : List Char) (h : regexTest ps s = true) :
    ∀ c ∈ s, ∃ p ∈ ps, p.cls.test c = true := by
  induction ps generalizing s with
  | nil =>
    rw [regexTest_nil_iff] at h
    subst h
    simp
  | cons p ps ih =>
    rw [regexTest_cons_iff] at h
    obtain ⟨a, b, rfl, -, -, hall, hrest⟩ := h
    intro c hc
    rcases List.mem_append.1 hc with hc | hc
    · exact ⟨p, by simp, hall c hc⟩
    · obtain ⟨q, hq, hq2⟩ := ih b hrest c hc
      exact ⟨q, List.mem_cons_of_mem _ hq, hq2⟩

/-- The length of a matched string lies between the sums of the bounds. -/
theorem regexTest_length (ps : List Piece) (s : List Char) (h : regexTest ps s = true) :
    (ps.map Piece.lo).sum ≤ s.length ∧ s.length ≤ (ps.map Piece.hi).sum := by
  induction ps generalizing s with
  | nil =>
    rw [regexTest_nil_iff] at h
    subst h
    simp
  | cons p ps ih =>
    rw [regexTest_cons_iff] at h
    obtain ⟨a, b, rfl, hlo, hhi, -, hrest⟩ := h
    have := ih b hrest
    simp only [List.map_cons, List.sum_cons, List.length_append]
    omega

theorem productCode_iff (s : List Char) : regexTest productCode s = true ↔ IsProductCode s := by
  simp only [productCode, lits, String.toList, List.map_cons, List.map_nil, List.cons_append,
    List.nil_append, regexTest_lit_cons_iff]
  simp only [regexTest_cons_iff ⟨.digit, 8, 8⟩]
  simp only [regexTest_lit_cons_iff, regexTest_single_iff, IsProductCode,
    digit_test_iff, upperAlnum_test_iff, String.toList]
  constructor
  · rintro ⟨_, rfl, _, rfl, _, rfl, _, rfl, _, rfl, d, _, rfl, hd1, hd2, hd, a, rfl, ha1, ha2, ha⟩
    exact ⟨d, a, by simp, by omega, hd, by omega, ha⟩
  · rintro ⟨d, a, rfl, hd1, hd, ha1, ha⟩
    exact ⟨_, rfl, _, rfl, _, rfl, _, rfl, _, rfl, d, _, by simp, by omega, by omega, hd, a,
      rfl, by omega, by omega, ha⟩

/-! ### trim -/

theorem rdropWhile_cons_of_neg {α : Type} (p : α → Bool) (a : α) (l : List α) (h : ¬ p a = true) :
    (a :: l).rdropWhile p = a :: l.rdropWhile p := by
  induction l using List.reverseRecOn with
  | nil => simp [List.rdropWhile_singleton, h]
  | append_singleton l x _ =>
    rw [← List.cons_append]
    by_cases hx : p x = true
    · rw [List.rdropWhile_concat_pos _ _ _ hx, List.rdropWhile_concat_pos _ _ _ hx]
      assumption
    · rw [List.rdropWhile_concat_neg _ _ _ hx, List.rdropWhile_concat_neg _ _ _ hx]
      rfl

theorem rdropWhile_append_of_pos {α : Type} (p : α → Bool) (l post : List α)
    (h : ∀ c ∈ post, p c = true) : (l ++ post).rdropWhile p = l.rdropWhile p := by
  induction post using List.reverseRecOn with
  | nil => simp
  | append_singleton post x ih =>
    rw [← List.append_assoc, List.rdropWhile_concat_pos _ _ _ (h x (by simp))]
    exact ih fun c hc => h c (by simp [hc])

theorem trim_cons_of_neg (a : Char) (l : List Char) (h : isTrimChar a = false) :
    trim (a :: l) = a :: l.rdropWhile isTrimChar := by
  have h2 : ¬ isTrimChar a = true := by simp [h]
  rw [trim, List.dropWhile_cons_of_neg h2, rdropWhile_cons_of_neg _ _ _ h2]

theorem trim_idem (s : List Char) : trim (trim s) = trim s := by
  unfold trim
  generalize hu : s.dropWhile isTrimChar = u
  have hd : u.dropWhile isTrimChar = u := by rw [← hu, List.dropWhile_idempotent]
  cases u with
  | nil => simp
  | cons a l =>
    have ha : ¬ isTrimChar a = true := by
      intro ha
      rw [List.dropWhile_cons_of_pos ha] at hd
      have := (List.dropWhile_suffix (l := l) isTrimChar).length_le
      rw [hd] at this
      simp at this
    rw [rdropWhile_cons_of_neg _ _ _ ha, List.dropWhile_cons_of_neg ha,
      ← rdropWhile_cons_of_neg _ _ _ ha, List.rdropWhile_idempotent]

theorem trim_pad (pre s post : List Char) (hpre : ∀ c ∈ pre, isTrimChar c = true)
    (hpost : ∀ c ∈ post, isTrimChar c = true) : trim (pre ++ s ++ post) = trim s := by
  unfold trim
  rw [List.append_assoc, List.dropWhile_append_of_pos hpre, List.dropWhile_append]
  split
  · rename_i h
    have h1 : s.dropWhile isTrimChar = [] := by simpa using h
    have h2 : post.dropWhile isTrimChar = [] := List.dropWhile_eq_nil_iff.2 hpost
    rw [h1, h2]
  · exact rdropWhile_append_of_pos _ _ _ hpost

theorem trim_eq_self_of_not_space (s : List Char) (h : ∀ c ∈ s, isTrimChar c = false) :
    trim s = s := by
  unfold trim
  have h1 : s.dropWhile isTrimChar = s := by
    cases s with
    | nil => rfl
    | cons a l => exact List.dropWhile_cons_of_neg (by simp [h a (by simp)])
  rw [h1, List.rdropWhile_eq_self_iff]
  intro hl
  simp [h _ (List.getLast_mem hl)]

theorem not_space_of_upperAlnum (c : Char) (h : IsUpperAlnum c) : isTrimChar c = false := by
  simp only [IsUpperAlnum, String.toList, List.mem_cons, List.mem_nil_iff, or_false] at h
  rcases h with h | h | h | h | h | h | h | h | h | h | h | h | h | h | h | h | h | h |
    h | h | h | h | h | h | h | h | h | h | h | h | h | h | h | h | h | h <;> subst h <;> decide

theorem upperAlnum_of_digit (c : Char) (h : IsDecimalDigit c) : IsUpperAlnum c := by
  simp only [IsDecimalDigit, String.toList, List.mem_cons, List.mem_nil_iff, or_false] at h
  rcases h with h | h | h | h | h | h | h | h | h | h <;> subst h <;> decide

/-! ### validateCode -/

theorem validateCode_eq (s : List Char) :
    validateCode s =
      if regexTest productCode (trim s) = true then ⟨true, "productCode", trim s⟩
      else if regexTest ean13 (trim s) = true then ⟨true, "ean13", trim s⟩
      else if regexTest upc (trim s) = true then ⟨true, "upc", trim s⟩
      else if regexTest custom (trim s) = true then ⟨true, "custom", trim s⟩
      else if (startsWith (trim s) "SCAN-".toList || startsWith (trim s) "BAR-".toList) = true
        then ⟨true, "scanned", trim s⟩
      else ⟨false, "unknown", trim s⟩ := by
  unfold validateCode patterns
  simp only [List.find?]
  cases regexTest productCode (trim s) <;> cases regexTest ean13 (trim s) <;>
    cases regexTest upc (trim s) <;> cases regexTest custom (trim s) <;> simp

theorem patterns_codeChar (e : String × List Piece) (he : e ∈ patterns) (p : Piece) (hp : p ∈ e.2)
    (c : Char) (hc : p.cls.test c = true) : IsCodeChar c := by
  simp only [patterns, List.mem_cons, List.mem_nil_iff, or_false] at he
  rcases he with rfl | rfl | rfl | rfl
  · simp only [productCode, lits, String.toList, List.map_cons, List.map_nil, List.cons_append,
      List.nil_append, List.mem_cons, List.mem_nil_iff, or_false] at hp
    rcases hp with rfl | rfl | rfl | rfl | rfl | rfl | rfl | rfl
    · have : c = 'P' := by simpa [CharClass.test] using hc
      subst this; decide
    · have : c = 'R' := by simpa [CharClass.test] using hc
      subst this; decide
    · have : c = 'O' := by simpa [CharClass.test] using hc
      subst this; decide
    · have : c = 'D' := by simpa [CharClass.test] using hc
      subst this; decide
    · have : c = '-' := by simpa [CharClass.test] using hc
      subst this; decide
    · exact Or.inl (upperAlnum_of_digit c ((digit_test_iff c).1 hc))
    · have : c = '-' := by simpa [CharClass.test] using hc
      subst this; decide
    · exact Or.inl ((upperAlnum_test_iff c).1 hc)
  · simp only [ean13, List.mem_cons, List.mem_nil_iff, or_false] at hp
    subst hp
    exact Or.inl (upperAlnum_of_digit c ((digit_test_iff c).1 hc))
  · simp only [upc, List.mem_cons, List.mem_nil_iff, or_false] at hp
    subst hp
    exact Or.inl (upperAlnum_of_digit c ((digit_test_iff c).1 hc))
  · simp only [custom, List.mem_cons, List.mem_nil_iff, or_false] at hp
    subst hp
    exact Or.inl ((upperAlnum_test_iff c).1 hc)

/-- A string that some pattern matches consists of characters of `[A-Z0-9-]`. -/
theorem codeChar_of_regexTest (e : String × List Piece) (he : e ∈ patterns) (t : List Char)
    (h : regexTest e.2 t = true) : ∀ c ∈ t, IsCodeChar c := by
  intro c hc
  obtain ⟨p, hp, hpc⟩ := regexTest_chars e.2 t h c hc
  exact patterns_codeChar e he p hp c hpc

/-- The type is the name of a pattern only if that pattern matches the trimmed string. -/
theorem regexTest_of_type (s : List Char) (e : String × List Piece) (he : e ∈ patterns)
    (h : (validateCode s).type = e.1) : regexTest e.2 (trim s) = true := by
  rw [validateCode_eq] at h
  simp only [patterns, List.mem_cons, List.mem_nil_iff, or_false] at he
  split_ifs at h with h1 h2 h3 h4 h5 <;> rcases he with rfl | rfl | rfl | rfl <;>
    first
      | assumption
      | (exfalso; simp only at h; revert h; decide)

theorem validateCode_congr (a b : List Char) (h : trim a = trim b) :
    validateCode a = validateCode b := by
  rw [validateCode_eq, validateCode_eq, h]

theorem productCode_length (t : List Char) (h : regexTest productCode t = true) :
    t.length = 20 := by
  have := regexTest_length productCode t h
  have e1 : (productCode.map Piece.lo).sum = 20 := by decide
  have e2 : (productCode.map Piece.hi).sum = 20 := by decide
  omega

theorem startsWith_iff (t : List Char) (w : List Char) : startsWith t w = true ↔ w <+: t := by
  simp [startsWith]

/-- C1: every string whose trimmed form is `PROD-`, 8 decimal digits, `-`, 6 characters of
`[A-Z0-9]` is reported valid with type `productCode`. -/
theorem validateCode_accepts_productCode (s : List Char) (h : IsProductCode (trim s)) :
    (validateCode s).valid = true ∧ (validateCode s).type = "productCode" := by
  rw [validateCode_eq, if_pos ((productCode_iff _).2 h)]
  exact ⟨rfl, rfl⟩

theorem validateCode_accepts_productCode_witness :
    IsProductCode (trim " PROD-12345678-ABC123\n".toList) ∧
      (validateCode " PROD-12345678-ABC123\n".toList).valid = true ∧
      (validateCode " PROD-12345678-ABC123\n".toList).type = "productCode" :=
  ⟨⟨"12345678".toList, "ABC123".toList, by decide, rfl, by decide, rfl, by decide⟩,
    validateCode_accepts_productCode " PROD-12345678-ABC123\n".toList
      ⟨"12345678".toList, "ABC123".toList, by decide, rfl, by decide, rfl, by decide⟩⟩

/-- C2: validateCode is first-match in the order productCode, ean13, upc, custom: the type is
the name of a grammar exactly when the trimmed string matches it and none of the grammars
before it; no string matches both ean13 and upc; a string of 13 decimal digits is classified
`ean13` and one of 12 decimal digits `upc`, although both also match custom. -/
theorem validateCode_first_match :
    (∀ s : List Char,
      ((validateCode s).type = "productCode" ↔ regexTest productCode (trim s) = true) ∧
      ((validateCode s).type = "ean13" ↔
        regexTest productCode (trim s) = false ∧ regexTest ean13 (trim s) = true) ∧
      ((validateCode s).type = "upc" ↔
        regexTest productCode (trim s) = false ∧ regexTest ean13 (trim s) = false ∧
          regexTest upc (trim s) = true) ∧
      ((validateCode s).type = "custom" ↔
        regexTest productCode (trim s) = false ∧ regexTest ean13 (trim s) = false ∧
          regexTest upc (trim s) = false ∧ regexTest custom (trim s) = true)) ∧
    (∀ t : List Char, ¬ (regexTest ean13 t = true ∧ regexTest upc t = true)) ∧
    (∀ s : List Char, s.length = 13 → (∀ c ∈ s, IsDecimalDigit c) →
      (validateCode s).valid = true ∧ (validateCode s).type = "ean13" ∧
        regexTest custom (trim s) = true) ∧
    (∀ s : List Char, s.length = 12 → (∀ c ∈ s, IsDecimalDigit c) →
      (validateCode s).valid = true ∧ (validateCode s).type = "upc" ∧
        regexTest custom (trim s) = true) := by
  refine ⟨?_, ?_, ?_, ?_⟩
  · intro s
    rw [validateCode_eq]
    cases regexTest productCode (trim s) <;> cases regexTest ean13 (trim s) <;>
      cases regexTest upc (trim s) <;> cases regexTest custom (trim s) <;>
      first
        | (simp; done)
        | (simp; split <;> (simp only; decide))
  · rintro t ⟨h1, h2⟩
    have := ((regexTest_single_iff _ _ _ _).1 h1).1
    have := ((regexTest_single_iff _ _ _ _).1 h2).2.1
    omega
  · intro s hlen hd
    have ht : trim s = s := trim_eq_self_of_not_space s fun c hc =>
      not_space_of_upperAlnum c (upperAlnum_of_digit c (hd c hc))
    have h1 : ¬ regexTest productCode s = true := fun h => by
      have := productCode_length s h
      omega
    have h2 : regexTest ean13 s = true :=
      (regexTest_single_iff _ _ _ _).2 ⟨by omega, by omega, fun c hc => (digit_test_iff c).2 (hd c hc)⟩
    have h3 : regexTest custom s = true :=
      (regexTest_single_iff _ _ _ _).2
        ⟨by omega, by omega, fun c hc => (upperAlnum_test_iff c).2 (upperAlnum_of_digit c (hd c hc))⟩
    rw [validateCode_eq, ht, if_neg h1, if_pos h2]
    exact ⟨rfl, rfl, h3⟩
  · intro s hlen hd
    have ht : trim s = s := trim_eq_self_of_not_space s fun c hc =>
      not_space_of_upperAlnum c (upperAlnum_of_digit c (hd c hc))
    have h1 : ¬ regexTest productCode s = true := fun h => by
      have := productCode_length s h
      omega
    have h2 : ¬ regexTest ean13 s = true := fun h => by
      have := ((regexTest_single_iff _ _ _ _).1 h).1
      omega
    have h3 : regexTest upc s = true :=
      (regexTest_single_iff _ _ _ _).2 ⟨by omega, by omega, fun c hc => (digit_test_iff c).2 (hd c hc)⟩
    have h4 : regexTest custom s = true :=
      (regexTest_single_iff _ _ _ _).2
        ⟨by omega, by omega, fun c hc => (upperAlnum_test_iff c).2 (upperAlnum_of_digit c (hd c hc))⟩
    rw [validateCode_eq, ht, if_neg h1, if_neg h2, if_pos h3]
    exact ⟨rfl, rfl, h4⟩

theorem validateCode_first_match_witness :
    (validateCode "4006381333931".toList).type = "ean13" ∧
      (validateCode "036000291452".toList).type = "upc" :=
  ⟨(validateCode_first_match.2.2.1 "4006381333931".toList rfl (by decide)).2.1,
    (validateCode_first_match.2.2.2 "036000291452".toList rfl (by decide)).2.1⟩

/-- C3: when the trimmed string matches none of the four grammars, it is reported valid with
type `scanned` if it starts with `SCAN-` or `BAR-`, and invalid with type `unknown` otherwise;
for every string, valid is false exactly when the type is `unknown`. -/
theorem validateCode_fallback :
    (∀ s : List Char, (∀ e ∈ patterns, regexTest e.2 (trim s) = false) →
      (("SCAN-".toList <+: trim s ∨ "BAR-".toList <+: trim s) →
        (validateCode s).valid = true ∧ (validateCode s).type = "scanned") ∧
      (¬ ("SCAN-".toList <+: trim s ∨ "BAR-".toList <+: trim s) →
        (validateCode s).valid = false ∧ (validateCode s).type = "unknown")) ∧
    (∀ s : List Char, (validateCode s).valid = false ↔ (validateCode s).type = "unknown") := by
  constructor
  · intro s h
    have h1 := h ("productCode", productCode) (by simp [patterns])
    have h2 := h ("ean13", ean13) (by simp [patterns])
    have h3 := h ("upc", upc) (by simp [patterns])
    have h4 := h ("custom", custom) (by simp [patterns])
    simp only at h1 h2 h3 h4
    rw [validateCode_eq, h1, h2, h3, h4]
    simp only [Bool.false_eq_true, if_false, Bool.or_eq_true, startsWith_iff]
    constructor
    · intro hp
      rw [if_pos hp]
      exact ⟨rfl, rfl⟩
    · intro hp
      rw [if_neg hp]
      exact ⟨rfl, rfl⟩
  · intro s
    rw [validateCode_eq]
    split_ifs <;> simp

theorem validateCode_fallback_witness :
    ((validateCode "BAR-000600".toList).valid = true ∧
        (validateCode "BAR-000600".toList).type = "scanned") ∧
      ((validateCode "hello".toList).valid = false ∧
        (validateCode "hello".toList).type = "unknown") :=
  ⟨(validateCode_fallback.1 "BAR-000600".toList (by decide)).1 (by decide),
    (validateCode_fallback.1 "hello".toList (by decide)).2 (by decide)⟩

/-- C4: white space is trimmed before matching: validateCode of a string equals validateCode of
its trimmed form in all three fields, the code field is the trimmed string, and padding a
string with white space at either end does not change the result. -/
theorem validateCode_trim :
    (∀ s : List Char, validateCode s = validateCode (trim s) ∧ (validateCode s).code = trim s) ∧
    (∀ pre s post : List Char, (∀ c ∈ pre, isTrimChar c = true) →
      (∀ c ∈ post, isTrimChar c = true) → validateCode (pre ++ s ++ post) = validateCode s) := by
  constructor
  · intro s
    refine ⟨validateCode_congr _ _ (trim_idem s).symm, ?_⟩
    rw [validateCode_eq]
    split_ifs <;> rfl
  · intro pre s post hpre hpost
    exact validateCode_congr _ _ (trim_pad pre s post hpre hpost)

theorem validateCode_trim_witness :
    validateCode ("\t ".toList ++ "123456789012".toList ++ " \n".toList) =
      validateCode "123456789012".toList :=
  validateCode_trim.2 "\t ".toList "123456789012".toList " \n".toList (by decide) (by decide)

theorem patterns_fixed_length (e : String × List Piece) (he : e ∈ patterns)
    (hc : e.1 ≠ "custom") : (e.2.map Piece.lo).sum = (e.2.map Piece.hi).sum := by
  simp only [patterns, List.mem_cons, List.mem_nil_iff, or_false] at he
  rcases he with rfl | rfl | rfl | rfl
  · decide
  · decide
  · decide
  · exact absurd rfl hc

/-- C5: matching is case-sensitive and anchored.  A trimmed string with a character outside
`[A-Z0-9-]` that does not start with `SCAN-` or `BAR-` is invalid with type `unknown`; a
string is classified by a grammar only if the grammar matches the whole trimmed string; a
string that properly contains a match of productCode, ean13 or upc is not matched by that
grammar; a string of 21 characters of `[A-Z0-9]` is invalid with type `unknown`, and so is
`XPROD-12345678-ABC123`. -/
theorem validateCode_anchored :
    (∀ s : List Char, (∃ c ∈ trim s, ¬ IsCodeChar c) →
      ¬ "SCAN-".toList <+: trim s → ¬ "BAR-".toList <+: trim s →
      (validateCode s).valid = false ∧ (validateCode s).type = "unknown") ∧
    (∀ s : List Char, ∀ e ∈ patterns, regexTest e.2 (trim s) = false →
      (validateCode s).type ≠ e.1) ∧
    (∀ e ∈ patterns, e.1 ≠ "custom" → ∀ pre m post : List Char, pre ++ post ≠ [] →
      regexTest e.2 m = true → regexTest e.2 (pre ++ m ++ post) = false) ∧
    (∀ s : List Char, s.length = 21 → (∀ c ∈ s, IsUpperAlnum c) →
      (validateCode s).valid = false ∧ (validateCode s).type = "unknown") ∧
    validateCode "XPROD-12345678-ABC123".toList =
      ⟨false, "unknown", "XPROD-12345678-ABC123".toList⟩ := by
  refine ⟨?_, ?_, ?_, ?_, by decide⟩
  · rintro s ⟨c, hc, hcc⟩ hscan hbar
    have hno : ∀ e ∈ patterns, ¬ regexTest e.2 (trim s) = true := fun e he h =>
      hcc (codeChar_of_regexTest e he _ h c hc)
    have h1 := hno ("productCode", productCode) (by simp [patterns])
    have h2 := hno ("ean13", ean13) (by simp [patterns])
    have h3 := hno ("upc", upc) (by simp [patterns])
    have h4 := hno ("custom", custom) (by simp [patterns])
    have h5 : ¬ (startsWith (trim s) "SCAN-".toList || startsWith (trim s) "BAR-".toList) = true := by
      simp only [Bool.or_eq_true, startsWith_iff]
      exact fun h => h.elim hscan hbar
    rw [validateCode_eq, if_neg h1, if_neg h2, if_neg h3, if_neg h4, if_neg h5]
    exact ⟨rfl, rfl⟩
  · intro s e he hm ht
    rw [regexTest_of_type s e he ht] at hm
    exact Bool.noConfusion hm
  · intro e he hc pre m post hne hm
    by_contra h
    have h := regexTest_length e.2 _ (by simpa using h)
    have hm := regexTest_length e.2 _ hm
    have hfix := patterns_fixed_length e he hc
    have hpos : 0 < (pre ++ post).length := List.length_pos.2 hne
    simp only [List.length_append] at h hpos
    omega
  · intro s hlen hs
    have ht : trim s = s := trim_eq_self_of_not_space s fun c hc =>
      not_space_of_upperAlnum c (hs c hc)
    have h1 : ¬ regexTest productCode s = true := fun h => by
      have := productCode_length s h
      omega
    have h2 : ¬ regexTest ean13 s = true := fun h => by
      have := ((regexTest_single_iff _ _ _ _).1 h).2.1
      omega
    have h3 : ¬ regexTest upc s = true := fun h => by
      have := ((regexTest_single_iff _ _ _ _).1 h).2.1
      omega
    have h4 : ¬ regexTest custom s = true := fun h => by
      have := ((regexTest_single_iff _ _ _ _).1 h).2.1
      omega
    have hdash : ¬ IsUpperAlnum '-' := by decide
    have h5 : ¬ (startsWith s "SCAN-".toList || startsWith s "BAR-".toList) = true := by
      simp only [Bool.or_eq_true, startsWith_iff]
      rintro (⟨r, rfl⟩ | ⟨r, rfl⟩)
      · exact hdash (hs '-' (by simp))
      · exact hdash (hs '-' (by simp))
    rw [validateCode_eq, ht, if_neg h1, if_neg h2, if_neg h3, if_neg h4, if_neg h5]
    exact ⟨rfl, rfl⟩

theorem validateCode_anchored_witness :
    ((validateCode "prod-12345678-abc123".toList).valid = false ∧
        (validateCode "prod-12345678-abc123".toList).type = "unknown") ∧
      ((validateCode "ABCDEFGHIJKLMNOPQRSTU".toList).valid = false ∧
        (validateCode "ABCDEFGHIJKLMNOPQRSTU".toList).type = "unknown") :=
  ⟨validateCode_anchored.1 "prod-12345678-abc123".toList ⟨'p', by decide, by decide⟩
      (by decide) (by decide),
    validateCode_anchored.2.2.2.1 "ABCDEFGHIJKLMNOPQRSTU".toList rfl (by decide)⟩

/-! ### Reconstructed codes are accepted as scanned -/

theorem trim_scan (rest : List Char) :
    trim ("SCAN-".toList ++ rest) = "SCAN-".toList ++ rest.rdropWhile isTrimChar := by
  simp only [String.toList, List.cons_append, List.nil_append]
  rw [trim_cons_of_neg _ _ (by decide), rdropWhile_cons_of_neg _ _ _ (by decide),
    rdropWhile_cons_of_neg _ _ _ (by decide), rdropWhile_cons_of_neg _ _ _ (by decide),
    rdropWhile_cons_of_neg _ _ _ (by decide)]

theorem trim_bar (rest : List Char) :
    trim ("BAR-".toList ++ rest) = "BAR-".toList ++ rest.rdropWhile isTrimChar := by
  simp only [String.toList, List.cons_append, List.nil_append]
  rw [trim_cons_of_neg _ _ (by decide), rdropWhile_cons_of_neg _ _ _ (by decide),
    rdropWhile_cons_of_neg _ _ _ (by decide), rdropWhile_cons_of_neg _ _ _ (by decide)]

/-- No pattern matches a string whose first character is not `P` and that contains `-`. -/
theorem no_pattern_of_dash (t : List Char) (hP : t.head? ≠ some 'P') (hd : '-' ∈ t) :
    regexTest productCode t = false ∧ regexTest ean13 t = false ∧ regexTest upc t = false ∧
      regexTest custom t = false := by
  have hdig : ¬ CharClass.digit.test '-' = true := by decide
  have hal : ¬ CharClass.upperAlnum.test '-' = true := by decide
  refine ⟨?_, ?_, ?_, ?_⟩
  · by_contra h
    obtain ⟨d, a, rfl, -⟩ := (productCode_iff t).1 (by simpa using h)
    exact hP rfl
  · by_contra h
    exact hdig (((regexTest_single_iff _ _ _ _).1 (by simpa using h)).2.2 _ hd)
  · by_contra h
    exact hdig (((regexTest_single_iff _ _ _ _).1 (by simpa using h)).2.2 _ hd)
  · by_contra h
    exact hal (((regexTest_single_iff _ _ _ _).1 (by simpa using h)).2.2 _ hd)

theorem validateCode_scan (rest : List Char) :
    validateCode ("SCAN-".toList ++ rest) =
      ⟨true, "scanned", "SCAN-".toList ++ rest.rdropWhile isTrimChar⟩ := by
  obtain ⟨h1, h2, h3, h4⟩ :=
    no_pattern_of_dash ("SCAN-".toList ++ rest.rdropWhile isTrimChar) (by simp) (by simp)
  have h5 : startsWith ("SCAN-".toList ++ rest.rdropWhile isTrimChar) "SCAN-".toList = true :=
    (startsWith_iff _ _).2 ⟨_, rfl⟩
  rw [validateCode_eq, trim_scan, h1, h2, h3, h4, h5]
  rfl

theorem validateCode_bar (rest : List Char) :
    validateCode ("BAR-".toList ++ rest) =
      ⟨true, "scanned", "BAR-".toList ++ rest.rdropWhile isTrimChar⟩ := by
  obtain ⟨h1, h2, h3, h4⟩ :=
    no_pattern_of_dash ("BAR-".toList ++ rest.rdropWhile isTrimChar) (by simp) (by simp)
  have h5 : startsWith ("BAR-".toList ++ rest.rdropWhile isTrimChar) "BAR-".toList = true :=
    (startsWith_iff _ _).2 ⟨_, rfl⟩
  rw [validateCode_eq, trim_bar, h1, h2, h3, h4, h5]
  simp

theorem extractQRData_eq (cands : List Point) (now : Int) :
    ∃ rest, extractQRData cands now = "SCAN-".toList ++ rest := by
  simp only [extractQRData, List.append_assoc]
  exact ⟨_, rfl⟩

theorem extractQRData_ne_nil (cands : List Point) (now : Int) : extractQRData cands now ≠ [] := by
  obtain ⟨rest, hr⟩ := extractQRData_eq cands now
  rw [hr]
  simp

theorem decodeBarcodePattern_eq (pattern : Int × Int) :
    ∃ rest, decodeBarcodePattern pattern = "BAR-".toList ++ rest := by
  simp only [decodeBarcodePattern]
  exact ⟨_, rfl⟩

theorem decodeBarcodePattern_ne_nil (pattern : Int × Int) : decodeBarcodePattern pattern ≠ [] := by
  obtain ⟨rest, hr⟩ := decodeBarcodePattern_eq pattern
  rw [hr]
  simp

theorem detectQRCode_eq (img : ImageData) (t : Int) :
    detectQRCode img t =
      if 3 ≤ (centerCandidates img).length then
        some ⟨"qr", extractQRData (centerCandidates img) t⟩
      else none := by
  have h2 : (200 : Int) / 2 = 100 := by decide
  simp only [detectQRCode, centerCandidates, h2, ge_iff_le]
  split_ifs with h1 h3
  · rfl
  · exact absurd h3 (not_not.2 (extractQRData_ne_nil _ _))
  · rfl

theorem detectBarcode_eq (img : ImageData) :
    detectBarcode img =
      match findBarcodePatterns (sampleScanline img) with
      | first :: _ => some ⟨"barcode", decodeBarcodePattern (first.1, first.2)⟩
      | [] => none := by
  simp only [detectBarcode]
  split
  · rw [if_pos (decodeBarcodePattern_ne_nil _)]
  · rfl

theorem detectQRCode_data (img : ImageData) (t : Int) (d : Detection)
    (h : detectQRCode img t = some d) : ∃ rest, d.data = "SCAN-".toList ++ rest := by
  rw [detectQRCode_eq] at h
  split_ifs at h
  obtain ⟨rest, hr⟩ := extractQRData_eq (centerCandidates img) t
  rw [← Option.some.inj h]
  exact ⟨rest, hr⟩

theorem detectBarcode_data (img : ImageData) (d : Detection)
    (h : detectBarcode img = some d) : ∃ rest, d.data = "BAR-".toList ++ rest := by
  rw [detectBarcode_eq] at h
  split at h
  · rename_i first _ _
    obtain ⟨rest, hr⟩ := decodeBarcodePattern_eq ((first.1 : Int), (first.2 : Int))
    rw [← Option.some.inj h]
    exact ⟨rest, hr⟩
  · exact Option.noConfusion h

theorem handleDetectedCode_eq (st : Scanner) (d : Detection) (now : Int) :
    handleDetectedCode st d now =
      if isRepeat st d now = true then st
      else
        { hasOnScan := st.hasOnScan
          scanning := false
          lastScanned := some ⟨d.data, d.type, now⟩
          onScanCalls := st.onScanCalls ++
            (if st.hasOnScan = true then
              [⟨d.data, d.type, (validateCode d.data).valid, (validateCode d.data).type⟩]
            else [])
          pauseTimers := st.pauseTimers ++ [now + 1000] } := by
  simp only [handleDetectedCode, pauseScanning]
  by_cases hr : isRepeat st d now = true
  · rw [if_pos hr, if_pos hr]
  · rw [if_neg hr, if_neg hr]
    by_cases ho : st.hasOnScan = true
    · rw [if_pos ho, if_pos ho]
    · rw [if_neg ho, if_neg ho]
      simp

theorem handleDetectedCode_calls (st : Scanner) (d : Detection) (now : Int) :
    ∃ new, (handleDetectedCode st d now).onScanCalls = st.onScanCalls ++ new ∧
      ∀ r ∈ new, r.valid = (validateCode d.data).valid ∧ r.codeType = (validateCode d.data).type := by
  rw [handleDetectedCode_eq]
  by_cases h1 : isRepeat st d now = true
  · rw [if_pos h1]
    exact ⟨[], by simp, by simp⟩
  · rw [if_neg h1]
    refine ⟨_, rfl, ?_⟩
    by_cases h2 : st.hasOnScan = true
    · rw [if_pos h2]
      simp
    · rw [if_neg h2]
      simp

/-- C6: every code string that the reconstructor produces is accepted as scanned: the result
of extractQRData, for every list of candidates and every timestamp, and the result of
decodeBarcodePattern, for every pair of integers and so for every pair that
findBarcodePatterns returns, are valid with type `scanned`; every payload that processFrame
passes to onScan has valid = true and codeType = `scanned`. -/
theorem validateCode_reconstructed :
    (∀ (cands : List Point) (t : Int),
      (validateCode (extractQRData cands t)).valid = true ∧
        (validateCode (extractQRData cands t)).type = "scanned") ∧
    (∀ start stop : Int,
      (validateCode (decodeBarcodePattern (start, stop))).valid = true ∧
        (validateCode (decodeBarcodePattern (start, stop))).type = "scanned") ∧
    (∀ (barcodeData : List Nat), ∀ p ∈ findBarcodePatterns barcodeData,
      (validateCode (decodeBarcodePattern (p.1, p.2))).valid = true ∧
        (validateCode (decodeBarcodePattern (p.1, p.2))).type = "scanned") ∧
    (∀ (st : Scanner) (img : ImageData) (tExtract now : Int),
      ∃ new, (processFrame st img tExtract now).onScanCalls = st.onScanCalls ++ new ∧
        ∀ r ∈ new, r.valid = true ∧ r.codeType = "scanned") := by
  have hbar : ∀ p : Int × Int, (validateCode (decodeBarcodePattern p)).valid = true ∧
      (validateCode (decodeBarcodePattern p)).type = "scanned" := fun p => by
    obtain ⟨rest, hr⟩ := decodeBarcodePattern_eq p
    rw [hr, validateCode_bar]
    exact ⟨rfl, rfl⟩
  refine ⟨?_, fun a b => hbar (a, b), fun _ p _ => hbar (p.1, p.2), ?_⟩
  · intro cands t
    obtain ⟨rest, hr⟩ := extractQRData_eq cands t
    rw [hr, validateCode_scan]
    exact ⟨rfl, rfl⟩
  · intro st img tExtract now
    unfold processFrame
    split
    · rename_i qr hq
      obtain ⟨rest, hr⟩ := detectQRCode_data img tExtract qr hq
      obtain ⟨new, h1, h2⟩ := handleDetectedCode_calls st qr now
      rw [hr, validateCode_scan] at h2
      exact ⟨new, h1, h2⟩
    · split
      · rename_i b hb
        obtain ⟨rest, hr⟩ := detectBarcode_data img b hb
        obtain ⟨new, h1, h2⟩ := handleDetectedCode_calls st b now
        rw [hr, validateCode_bar] at h2
        exact ⟨new, h1, h2⟩
      · exact ⟨[], by simp, by simp⟩

theorem validateCode_reconstructed_witness :
    (validateCode (decodeBarcodePattern (1, 3))).valid = true ∧
      (validateCode (decodeBarcodePattern (1, 3))).type = "scanned" :=
  validateCode_reconstructed.2.2.1 [0, 1, 1, 0] (1, 3) (by decide)

/-! ### Numbers as strings -/

theorem toDigitsFuel_acc (radix : Nat) (hr : 2 ≤ radix) (n : Nat) :
    ∀ fuel acc, n < fuel → toDigitsFuel radix fuel n acc = natToString radix n ++ acc := by
  induction n using Nat.strong_induction_on with
  | _ n ih =>
    intro fuel acc hf
    obtain ⟨f, rfl⟩ : ∃ f, fuel = f + 1 := ⟨fuel - 1, by omega⟩
    by_cases hn : n < radix
    · simp [natToString, toDigitsFuel, hn]
    · have hlt : n / radix < n := Nat.div_lt_self (by omega) (by omega)
      have h1 : toDigitsFuel radix (f + 1) n acc =
          toDigitsFuel radix f (n / radix) (digitChar (n % radix) :: acc) := by
        simp [toDigitsFuel, hn]
      have h2 : natToString radix n =
          toDigitsFuel radix n (n / radix) [digitChar (n % radix)] := by
        simp [natToString, toDigitsFuel, hn]
      rw [h1, h2, ih _ hlt f _ (by omega), ih _ hlt n _ hlt]
      simp

theorem natToString_lt (radix n : Nat) (hn : n < radix) :
    natToString radix n = [digitChar n] := by
  simp [natToString, toDigitsFuel, hn]

theorem natToString_ge (radix n : Nat) (hr : 2 ≤ radix) (hn : radix ≤ n) :
    natToString radix n = natToString radix (n / radix) ++ [digitChar (n % radix)] := by
  have hlt : n / radix < n := Nat.div_lt_self (by omega) (by omega)
  have h2 : natToString radix n =
      toDigitsFuel radix n (n / radix) [digitChar (n % radix)] := by
    simp [natToString, toDigitsFuel, Nat.not_lt.2 hn]
  rw [h2, toDigitsFuel_acc radix hr _ n _ hlt]

/-- The rendering of a positive number lists its positional digits. -/
theorem natToString_eq_digits (radix : Nat) (hr : 2 ≤ radix) (n : Nat) (hn : 0 < n) :
    natToString radix n = (Nat.digits radix n).reverse.map digitChar := by
  induction n using Nat.strong_induction_on with
  | _ n ih =>
    rw [Nat.digits_def' (by omega) hn]
    by_cases hlt : n < radix
    · rw [natToString_lt radix n hlt, Nat.mod_eq_of_lt hlt, Nat.div_eq_of_lt hlt]
      simp
    · have hd : 0 < n / radix := Nat.div_pos (by omega) (by omega)
      rw [natToString_ge radix n hr (by omega),
        ih _ (Nat.div_lt_self (by omega) (by omega)) hd]
      simp

theorem numberToString_eq_base36 (n : Int) : numberToString 36 n = base36 n := by
  unfold numberToString base36
  by_cases h0 : n = 0
  · subst h0
    decide
  · have hpos : 0 < n.natAbs := Int.natAbs_pos.2 h0
    rw [natToString_eq_digits 36 (by omega) _ hpos, if_neg h0]
    split_ifs <;> simp

theorem lastDigits_zero (k : Nat) : lastDigits k 0 = List.replicate k '0' := by
  induction k with
  | zero => rfl
  | succ k ih =>
    rw [lastDigits, Nat.zero_div, ih, List.replicate_succ']
    rfl

theorem natToString_length_pos (radix n : Nat) (hr : 2 ≤ radix) :
    0 < (natToString radix n).length := by
  by_cases hn : n < radix
  · rw [natToString_lt radix n hn]
    simp
  · rw [natToString_ge radix n hr (by omega)]
    simp

theorem padStart_natToString (k n : Nat) (hn : n < 10 ^ (k + 1)) :
    padStart (k + 1) '0' (natToString 10 n) = lastDigits (k + 1) n := by
  induction k generalizing n with
  | zero =>
    have hn : n < 10 := by simpa using hn
    rw [natToString_lt 10 n hn]
    simp [padStart, lastDigits, Nat.mod_eq_of_lt hn]
  | succ k ih =>
    by_cases h10 : n < 10
    · rw [natToString_lt 10 n h10, lastDigits, Nat.div_eq_of_lt h10, lastDigits_zero,
        Nat.mod_eq_of_lt h10]
      simp [padStart]
    · have hdiv : n / 10 < 10 ^ (k + 1) := by
        rw [Nat.div_lt_iff_lt_mul (by omega)]
        rw [pow_succ] at hn
        exact hn
      rw [natToString_ge 10 n (by omega) (by omega), lastDigits, ← ih _ hdiv]
      have := natToString_length_pos 10 (n / 10) (by omega)
      simp only [padStart, List.length_append, List.length_singleton, List.append_assoc]
      congr 2
      omega

theorem digitChar_eq (d : Nat) (hd : d < 10) : digitChar d = Nat.digitChar d := by
  interval_cases d <;> rfl

theorem padStart_eq_sixDigits (n : Nat) (hn : n < 1000000) :
    padStart 6 '0' (natToString 10 n) = sixDigits n := by
  rw [padStart_natToString 5 n (by simpa using hn)]
  simp only [lastDigits, sixDigits, List.nil_append, List.cons_append, List.singleton_append]
  rw [digitChar_eq _ (Nat.mod_lt _ (by omega)), digitChar_eq _ (Nat.mod_lt _ (by omega)),
    digitChar_eq _ (Nat.mod_lt _ (by omega)), digitChar_eq _ (Nat.mod_lt _ (by omega)),
    digitChar_eq _ (Nat.mod_lt _ (by omega)), digitChar_eq _ (Nat.mod_lt _ (by omega))]
  simp only [Nat.div_div_eq_div_mul]

/-! ### Doubles -/

theorem bitLengthFuel_le (fuel : Nat) :
    ∀ a k : Nat, a < 2 ^ k → bitLengthFuel fuel a ≤ k := by
  induction fuel with
  | zero =>
    intro a k _
    simp [bitLengthFuel]
  | succ fuel ih =>
    intro a k h
    rw [bitLengthFuel]
    split_ifs with h0
    · omega
    · cases k with
      | zero =>
        simp only [pow_zero] at h
        omega
      | succ k =>
        have hdiv : a / 2 < 2 ^ k := by
          rw [Nat.div_lt_iff_lt_mul (by omega)]
          rw [pow_succ] at h
          exact h
        have := ih (a / 2) k hdiv
        omega

/-- The fuel of `bitLength` is enough: a positive `a` has exactly `bitLength a` binary
digits. -/
theorem bitLengthFuel_spec (fuel : Nat) :
    ∀ a : Nat, a ≤ fuel → 0 < a →
      2 ^ (bitLengthFuel fuel a - 1) ≤ a ∧ a < 2 ^ bitLengthFuel fuel a := by
  induction fuel with
  | zero =>
    intro a h ha
    omega
  | succ fuel ih =>
    intro a h ha
    rw [bitLengthFuel, if_neg (by omega)]
    by_cases h1 : a / 2 = 0
    · have hb : bitLengthFuel fuel (a / 2) = 0 := by
        rw [h1]
        cases fuel <;> simp [bitLengthFuel]
      rw [hb]
      simp only [zero_add, Nat.sub_self, pow_zero, pow_one]
      omega
    · obtain ⟨ih1, ih2⟩ := ih (a / 2) (by omega) (by omega)
      have hpos : 0 < bitLengthFuel fuel (a / 2) := by
        by_contra hz
        have hz0 : bitLengthFuel fuel (a / 2) = 0 := by omega
        rw [hz0] at ih2
        simp only [pow_zero] at ih2
        omega
      have e1 : bitLengthFuel fuel (a / 2) + 1 - 1 = (bitLengthFuel fuel (a / 2) - 1) + 1 := by
        omega
      rw [e1, pow_succ, pow_succ]
      omega

theorem bitLength_spec (a : Nat) (ha : 0 < a) :
    2 ^ (bitLength a - 1) ≤ a ∧ a < 2 ^ bitLength a :=
  bitLengthFuel_spec a a (le_refl a) ha

/-- From `2 ^ 53` on, `roundDouble n` is a double of the binade of `n`: with
`e = bitLength |n| - 53`, so that `2 ^ (52 + e) ≤ |n| < 2 ^ (53 + e)`, it is a multiple of
`2 ^ e` at distance at most `2 ^ e / 2` from `n`, and at exactly that distance only when its
quotient by `2 ^ e` is even. -/
theorem roundDouble_spec (n : Int) (h : 2 ^ 53 ≤ n.natAbs) :
    2 ^ (52 + (bitLength n.natAbs - 53)) ≤ n.natAbs ∧
      n.natAbs < 2 ^ (53 + (bitLength n.natAbs - 53)) ∧
      (roundDouble n).natAbs % 2 ^ (bitLength n.natAbs - 53) = 0 ∧
      2 * (roundDouble n - n).natAbs ≤ 2 ^ (bitLength n.natAbs - 53) ∧
      (2 * (roundDouble n - n).natAbs = 2 ^ (bitLength n.natAbs - 53) →
        (roundDouble n).natAbs / 2 ^ (bitLength n.natAbs - 53) % 2 = 0) := by
  have hpos : 0 < n.natAbs := lt_of_lt_of_le (by positivity) h
  obtain ⟨hb1, hb2⟩ := bitLength_spec n.natAbs hpos
  have hb53 : 53 < bitLength n.natAbs := by
    by_contra hle
    have : 2 ^ bitLength n.natAbs ≤ 2 ^ 53 := Nat.pow_le_pow_right (by omega) (by omega)
    omega
  have e52 : 52 + (bitLength n.natAbs - 53) = bitLength n.natAbs - 1 := by omega
  have e53 : 53 + (bitLength n.natAbs - 53) = bitLength n.natAbs := by omega
  rw [e52, e53]
  refine ⟨hb1, hb2, ?_⟩
  generalize hP : 2 ^ (bitLength n.natAbs - 53) = P
  have hPpos : 0 < P := by
    rw [← hP]
    positivity
  have hdm := Nat.div_add_mod n.natAbs P
  have hr := Nat.mod_lt n.natAbs hPpos
  have hround : roundDouble n =
      if n < 0 then
        -(((if P < 2 * (n.natAbs % P) ∨ (2 * (n.natAbs % P) = P ∧ n.natAbs / P % 2 = 1) then
          n.natAbs / P + 1 else n.natAbs / P) * P : Nat) : Int)
      else (((if P < 2 * (n.natAbs % P) ∨ (2 * (n.natAbs % P) = P ∧ n.natAbs / P % 2 = 1) then
          n.natAbs / P + 1 else n.natAbs / P) * P : Nat) : Int) := by
    simp only [roundDouble]
    rw [if_neg (by omega), hP]
  generalize hm : (if P < 2 * (n.natAbs % P) ∨ (2 * (n.natAbs % P) = P ∧ n.natAbs / P % 2 = 1)
    then n.natAbs / P + 1 else n.natAbs / P) = q at hround
  have habs : (roundDouble n).natAbs = q * P := by
    rw [hround]
    split_ifs
    · rw [Int.natAbs_neg, Int.natAbs_ofNat]
    · rw [Int.natAbs_ofNat]
  have hdist : (roundDouble n - n).natAbs = ((q * P : Nat) - (n.natAbs : Int)).natAbs := by
    rw [hround]
    split_ifs with hneg
    · have : n = -(n.natAbs : Int) := by omega
      rw [this, Int.natAbs_neg, Int.natAbs_ofNat, ← Int.natAbs_neg]
      congr 1
      omega
    · have : n = (n.natAbs : Int) := by omega
      rw [this, Int.natAbs_ofNat]
  rw [habs, hdist, Nat.mul_mod_left, Nat.mul_div_cancel _ hPpos]
  refine ⟨rfl, ?_⟩
  have hmul : P * (n.natAbs / P) = n.natAbs / P * P := Nat.mul_comm _ _
  rw [hmul] at hdm
  generalize n.natAbs / P = A at hdm hm
  generalize n.natAbs % P = r at hdm hm hr
  generalize n.natAbs = a at hdm
  split_ifs at hm with hup
  · have hq : q * P = A * P + P := by
      rw [← hm, Nat.add_mul, Nat.one_mul]
    have hd : ((q * P : Nat) : Int) - (a : Int) = ((P - r : Nat) : Int) := by omega
    rw [hd, Int.natAbs_ofNat]
    constructor
    · rcases hup with h1 | ⟨h1, -⟩ <;> omega
    · intro heq
      rcases hup with h1 | ⟨-, h2⟩
      · omega
      · rw [← hm]
        omega
  · have hnot := not_or.1 hup
    have hd : ((q * P : Nat) : Int) - (a : Int) = -((r : Nat) : Int) := by
      rw [← hm]
      omega
    rw [hd, Int.natAbs_neg, Int.natAbs_ofNat, ← hm]
    constructor
    · omega
    · intro heq
      have h3 : ¬ A % 2 = 1 := fun h4 => hnot.2 ⟨heq, h4⟩
      omega

/-- An integer below `2 ^ 53` in absolute value is a double: no operation rounds it. -/
theorem toDouble_of_lt (n : Int) (h : n.natAbs < 2 ^ 53) : toDouble n = .fin n := by
  have hr : roundDouble n = n := by
    simp only [roundDouble]
    rw [if_pos h]
  have hb : bitLength n.natAbs ≤ 1024 := by
    have := bitLengthFuel_le n.natAbs n.natAbs 53 h
    unfold bitLength
    omega
  simp only [toDouble, hr]
  rw [if_pos hb]

/-- C7, amended: for integers `0 ≤ start ≤ end < 2 ^ 53` whose product `(end - start) * start` is below
`2 ^ 53`, decodeBarcodePattern returns `BAR-` followed by `((end - start) * start) mod 1000000`
in decimal, padded with zeros to exactly 6 digits, a string of exactly 10 characters. -/
theorem decodeBarcodePattern_formula (start stop : Int) (h0 : 0 ≤ start) (h1 : start ≤ stop)
    (h2 : stop < 2 ^ 53) (h3 : (stop - start) * start < 2 ^ 53) :
    decodeBarcodePattern (start, stop) =
        "BAR-".toList ++ sixDigits (((stop - start) * start) % 1000000).toNat ∧
      (decodeBarcodePattern (start, stop)).length = 10 := by
  have hprod : 0 ≤ (stop - start) * start := Int.mul_nonneg (by omega) h0
  have hmod0 : 0 ≤ ((stop - start) * start) % 1000000 := Int.emod_nonneg _ (by decide)
  have hmod1 : ((stop - start) * start) % 1000000 < 1000000 := Int.emod_lt_of_pos _ (by decide)
  have hw : JsNum.sub (.fin stop) (.fin start) = .fin (stop - start) := by
    rw [JsNum.sub, toDouble_of_lt _ (by omega)]
  have hp : JsNum.mul (.fin (stop - start)) (.fin start) = .fin ((stop - start) * start) := by
    rw [JsNum.mul, toDouble_of_lt _ (by omega)]
  have h : decodeBarcodePattern (start, stop) =
      "BAR-".toList ++ sixDigits (((stop - start) * start) % 1000000).toNat := by
    simp only [decodeBarcodePattern, hw, hp, JsNum.mod, JsNum.toString]
    rw [Int.tmod_eq_emod hprod (by decide), numberToString, if_neg (by omega)]
    have e : (((stop - start) * start) % 1000000).natAbs =
        (((stop - start) * start) % 1000000).toNat := by omega
    rw [e, padStart_eq_sixDigits _ (by omega)]
  refine ⟨h, ?_⟩
  rw [h]
  rfl

theorem decodeBarcodePattern_formula_witness :
    decodeBarcodePattern (40, 55) = "BAR-000600".toList ∧
      (decodeBarcodePattern (40, 55)).length = 10 :=
  ⟨(decodeBarcodePattern_formula 40 55 (by decide) (by decide) (by decide) (by decide)).1.trans
      (by decide),
    (decodeBarcodePattern_formula 40 55 (by decide) (by decide) (by decide) (by decide)).2⟩

/-- C7, as stated, fails: the pair `[94906267, 189812534]` has `0 ≤ start ≤ end`; its product
`94906267 * 94906267 = 9007199515875289` lies above `2 ^ 53` and is rounded to the double
`9007199515875288`, so decodeBarcodePattern returns `BAR-875288`, while
`((end - start) * start) mod 1000000` padded to 6 digits is `875289`. -/
theorem decodeBarcodePattern_rounds :
    (0 : Int) ≤ 94906267 ∧ (94906267 : Int) ≤ 189812534 ∧
      decodeBarcodePattern (94906267, 189812534) = "BAR-875288".toList ∧
      "BAR-".toList ++ sixDigits ((((189812534 : Int) - 94906267) * 94906267) % 1000000).toNat =
        "BAR-875289".toList := by
  decide

/-! ### Loops -/

/-- With `step ≥ 1` the fuel of `forLoop` suffices: the loop visits exactly the values
`start + k * step` below the bound. -/
theorem mem_forLoopFuel (step bound : Int) (hs : 1 ≤ step) (fuel : Nat) :
    ∀ v : Int, (bound - v).toNat ≤ fuel →
      ∀ w, w ∈ forLoopFuel step bound fuel v ↔ ∃ k : Nat, w = v + k * step ∧ w < bound := by
  induction fuel with
  | zero =>
    intro v hv w
    simp only [forLoopFuel, List.not_mem_nil, false_iff, not_exists, not_and, not_lt]
    rintro k rfl
    have : 0 ≤ (k : Int) * step := Int.mul_nonneg (by omega) (by omega)
    omega
  | succ fuel ih =>
    intro v hv w
    rw [forLoopFuel]
    split_ifs with hlt
    · rw [List.mem_cons, ih (v + step) (by omega)]
      constructor
      · rintro (rfl | ⟨k, rfl, hk⟩)
        · exact ⟨0, by simp, hlt⟩
        · exact ⟨k + 1, by push_cast; ring, hk⟩
      · rintro ⟨k, rfl, hk⟩
        cases k with
        | zero => exact Or.inl (by simp)
        | succ k => exact Or.inr ⟨k, by push_cast; ring, hk⟩
    · simp only [List.not_mem_nil, false_iff, not_exists, not_and, not_lt]
      rintro k rfl
      have : 0 ≤ (k : Int) * step := Int.mul_nonneg (by omega) (by omega)
      omega

theorem mem_forLoop (start bound step : Int) (hs : 1 ≤ step) (w : Int) :
    w ∈ forLoop start bound step ↔ ∃ k : Nat, w = start + k * step ∧ w < bound :=
  mem_forLoopFuel step bound hs _ start (le_refl _) w

/-! ### The locator -/

theorem foldl_invariant {α β : Type} (P : β → Prop) (f : β → α → β)
    (hf : ∀ b a, P b → P (f b a)) : ∀ (l : List α) (b : β), P b → P (l.foldl f b) := by
  intro l
  induction l with
  | nil => exact fun b hb => hb
  | cons a l ih => exact fun b hb => ih _ (hf b a hb)

theorem foldl_push_filter {α β : Type} (p : α → Bool) (f : α → β) (xs : List α)
    (acc : List β) :
    xs.foldl (fun ps x => if p x = true then ps ++ [f x] else ps) acc =
      acc ++ (xs.filter p).map f := by
  induction xs generalizing acc with
  | nil => simp
  | cons x xs ih =>
    rw [List.foldl_cons, ih]
    by_cases hp : p x = true
    · simp [hp]
    · simp [hp]

theorem foldl_append_flatMap {α β : Type} (g : α → List β) (ys : List α) (acc : List β) :
    ys.foldl (fun ps y => ps ++ g y) acc = acc ++ ys.flatMap g := by
  induction ys generalizing acc with
  | nil => simp
  | cons y ys ih =>
    rw [List.foldl_cons, ih]
    simp

/-- The candidates are the grid points that pass `isPositionPattern`, row by row. -/
theorem findPositionPatterns_eq (img : ImageData) (startX startY size : Int) :
    findPositionPatterns img startX startY size =
      (forLoop startY (startY + size) 10).flatMap fun y =>
        ((forLoop startX (startX + size) 10).filter fun x => isPositionPattern img x y).map
          fun x => ⟨x, y⟩ := by
  simp only [findPositionPatterns, foldl_push_filter, foldl_append_flatMap, List.nil_append]

theorem countWindow_no_dark (img : ImageData) (h : ∀ i, isDarkAt img i = false) (x y : Int) :
    (countWindow img x y).1 = 0 := by
  unfold countWindow
  apply foldl_invariant (fun acc : Nat × Nat => acc.1 = 0)
  · intro acc dy hacc
    apply foldl_invariant (fun acc : Nat × Nat => acc.1 = 0)
    · intro acc2 dx hacc2
      simp only [h, Bool.false_eq_true, if_false]
      split_ifs <;> exact hacc2
    · exact hacc
  · rfl

theorem isPositionPattern_no_dark (img : ImageData) (h : ∀ i, isDarkAt img i = false)
    (x y : Int) : isPositionPattern img x y = false := by
  simp [isPositionPattern, countWindow_no_dark img h x y]

theorem findPositionPatterns_no_dark (img : ImageData) (h : ∀ i, isDarkAt img i = false)
    (startX startY size : Int) : findPositionPatterns img startX startY size = [] := by
  rw [findPositionPatterns_eq]
  simp [isPositionPattern_no_dark img h]

theorem isDarkAt_uniform_light (w h i : Nat) : isDarkAt (uniformImage w h 255) i = false := by
  simp only [isDarkAt, uniformImage, List.getElem?_replicate]
  split_ifs <;> simp

theorem centerCandidates_light (w h : Nat) : centerCandidates (uniformImage w h 255) = [] :=
  findPositionPatterns_no_dark _ (isDarkAt_uniform_light w h) _ _ _

theorem length_le_length_flatMap {α β : Type} (g : α → List β) (ys : List α) (y : α)
    (hy : y ∈ ys) : (g y).length ≤ (ys.flatMap g).length :=
  (List.sublist_flatten_of_mem (List.mem_map_of_mem g hy)).length_le

set_option maxRecDepth 100000 in
/-- In the all-dark frame of 11 by 1 pixels the row `y = 0` of the grid holds 3 candidates. -/
theorem centerCandidates_dark_row : 3 ≤ (centerCandidates (uniformImage 11 1 0)).length := by
  unfold centerCandidates
  rw [findPositionPatterns_eq]
  refine le_trans ?_ (length_le_length_flatMap _ _ 0 (by decide))
  decide

/-! ### The tick -/

/-- C8: the 2-D path is tried first.  With fewer than 3 candidates in the centred square of
side 200, detectQRCode yields no detection and processFrame does what detectBarcode decides;
with 3 or more candidates processFrame handles the detection of type `qr` built from them,
whatever detectBarcode would return. -/
theorem processFrame_qr_first (st : Scanner) (img : ImageData) (tExtract now : Int) :
    ((centerCandidates img).length < 3 →
      detectQRCode img tExtract = none ∧
        processFrame st img tExtract now =
          (match detectBarcode img with
            | some barcode => handleDetectedCode st barcode now
            | none => st)) ∧
    (3 ≤ (centerCandidates img).length →
      detectQRCode img tExtract =
          some ⟨"qr", extractQRData (centerCandidates img) tExtract⟩ ∧
        processFrame st img tExtract now =
          handleDetectedCode st ⟨"qr", extractQRData (centerCandidates img) tExtract⟩ now) := by
  constructor
  · intro h
    have hq : detectQRCode img tExtract = none := by
      rw [detectQRCode_eq, if_neg (by omega)]
    refine ⟨hq, ?_⟩
    simp only [processFrame, hq]
  · intro h
    have hq : detectQRCode img tExtract =
        some ⟨"qr", extractQRData (centerCandidates img) tExtract⟩ := by
      rw [detectQRCode_eq, if_pos h]
    refine ⟨hq, ?_⟩
    simp only [processFrame, hq]

theorem processFrame_qr_first_witness :
    (detectQRCode (uniformImage 1 1 255) 0 = none ∧
        processFrame ⟨true, true, none, [], []⟩ (uniformImage 1 1 255) 0 0 =
          (match detectBarcode (uniformImage 1 1 255) with
            | some barcode => handleDetectedCode ⟨true, true, none, [], []⟩ barcode 0
            | none => ⟨true, true, none, [], []⟩)) ∧
      processFrame ⟨true, true, none, [], []⟩ (uniformImage 11 1 0) 0 0 =
        handleDetectedCode ⟨true, true, none, [], []⟩
          ⟨"qr", extractQRData (centerCandidates (uniformImage 11 1 0)) 0⟩ 0 :=
  ⟨(processFrame_qr_first ⟨true, true, none, [], []⟩ (uniformImage 1 1 255) 0 0).1
      (by rw [centerCandidates_light 1 1]; decide),
    ((processFrame_qr_first ⟨true, true, none, [], []⟩ (uniformImage 11 1 0) 0 0).2
      centerCandidates_dark_row).2⟩

/-! ### extractQRData -/

/-- While the absolute values of the products sum to less than `2 ^ 53`, the sum that
`reduce` computes on doubles is the exact sum. -/
theorem foldl_add_products (cands : List Point) (acc : Int)
    (h : acc.natAbs + (cands.map fun p => (p.x * p.y).natAbs).sum < 2 ^ 53) :
    (cands.map fun p => JsNum.mul (.fin p.x) (.fin p.y)).foldl
        (fun a b => JsNum.add a b) (.fin acc) =
      .fin (acc + (cands.map fun p => p.x * p.y).sum) := by
  induction cands generalizing acc with
  | nil => simp
  | cons p l ih =>
    simp only [List.map_cons, List.foldl_cons, List.sum_cons] at h ⊢
    have hadd := Int.natAbs_add_le acc (p.x * p.y)
    have h1 : (p.x * p.y).natAbs < 2 ^ 53 := by omega
    have h2 : (acc + p.x * p.y).natAbs < 2 ^ 53 := by omega
    rw [JsNum.mul, toDouble_of_lt _ h1, JsNum.add, toDouble_of_lt _ h2, ih _ (by omega)]
    congr 1
    omega

/-- C9, amended: for candidates whose products `x * y` have absolute values that sum to less
than `2 ^ 53`, extractQRData returns `SCAN-`, the upper-cased base-36 rendering of the
timestamp, `-` and the hash: the upper-cased base-36 rendering of the sum of `x * y` over the
candidates cut to 6 characters.  The hash has at most 6 characters and is the same at every
time. -/
theorem extractQRData_format (cands : List Point) (t : Int)
    (hsafe : (cands.map fun p => (p.x * p.y).natAbs).sum < 2 ^ 53) :
    extractQRData cands t =
        "SCAN-".toList ++ (base36 t).map Char.toUpper ++ "-".toList ++ patternHashSpec cands ∧
      (patternHashSpec cands).length ≤ 6 ∧
      ∀ t2 : Int, (extractQRData cands t2).drop (5 + (base36 t2).length + 1) =
        patternHashSpec cands := by
  have hsum := foldl_add_products cands 0 (by simpa using hsafe)
  have h : ∀ u : Int, extractQRData cands u =
      "SCAN-".toList ++ (base36 u).map Char.toUpper ++ "-".toList ++ patternHashSpec cands := by
    intro u
    simp only [extractQRData, hsum, JsNum.toString, patternHashSpec, toUpperCase,
      numberToString_eq_base36, zero_add]
  refine ⟨h t, ?_, ?_⟩
  · simp only [patternHashSpec, List.length_take]
    omega
  · intro t2
    rw [h t2]
    have hl : ("SCAN-".toList ++ (base36 t2).map Char.toUpper ++ "-".toList).length =
        5 + (base36 t2).length + 1 := by
      simp [String.toList]
      omega
    rw [← hl, List.drop_left]

theorem extractQRData_format_witness :
    ([⟨20, 30⟩, ⟨100, 7⟩].map fun p : Point => (p.x * p.y).natAbs).sum < 2 ^ 53 ∧
      extractQRData [⟨20, 30⟩, ⟨100, 7⟩] 1700000000000 = "SCAN-LOYW3V28-104".toList :=
  ⟨by decide,
    (extractQRData_format [⟨20, 30⟩, ⟨100, 7⟩] 1700000000000 (by decide)).1.trans (by
      simp only [patternHashSpec, ← numberToString_eq_base36]
      decide)⟩

/-- C9, as stated, fails: for the single candidate `(362797055, 362797057)` the product is
`36 ^ 11 - 1`, whose base-36 rendering is eleven times `z`; it lies above `2 ^ 53` and is
rounded to the double `36 ^ 11`, printed as `1` and eleven times `0`, so the hash of
extractQRData is `100000`, while the upper-cased base-36 rendering of the sum of `x * y` cut
to 6 characters is `ZZZZZZ`. -/
theorem extractQRData_rounds :
    extractQRData [⟨362797055, 362797057⟩] 1700000000000 = "SCAN-LOYW3V28-100000".toList ∧
      "SCAN-".toList ++ (base36 1700000000000).map Char.toUpper ++ "-".toList ++
          patternHashSpec [⟨362797055, 362797057⟩] = "SCAN-LOYW3V28-ZZZZZZ".toList := by
  refine ⟨by decide, ?_⟩
  simp only [patternHashSpec, ← numberToString_eq_base36]
  decide

/-! ### The debounce -/

theorem emitted_ne (st : Scanner) (d : Detection) (now : Int) : emitted st d now ≠ st := by
  intro h
  have := congrArg (fun s => s.pauseTimers.length) h
  simp [emitted] at this

theorem handleDetectedCode_cases (st : Scanner) (d : Detection) (now : Int) :
    handleDetectedCode st d now = if isRepeat st d now = true then st else emitted st d now := by
  rw [handleDetectedCode_eq]
  rfl

/-- C10, as stated, fails at the boundary: with lastScanned = (`BAR-000600`, time
1700000000000), an onScan callback set and the same code detected at time 1700000001000, the
detection is emitted although the code is the same and now does not exceed the last time
plus the cooldown. -/
theorem handleDetectedCode_boundary :
    (handleDetectedCode
        ⟨true, true, some ⟨"BAR-000600".toList, "barcode", 1700000000000⟩, [], []⟩
        ⟨"barcode", "BAR-000600".toList⟩ 1700000001000).onScanCalls =
        [⟨"BAR-000600".toList, "barcode", true, "scanned"⟩] ∧
      (handleDetectedCode
        ⟨true, true, some ⟨"BAR-000600".toList, "barcode", 1700000000000⟩, [], []⟩
        ⟨"barcode", "BAR-000600".toList⟩ 1700000001000).lastScanned =
        some ⟨"BAR-000600".toList, "barcode", 1700000001000⟩ ∧
      ¬ ("BAR-000600".toList ≠ "BAR-000600".toList ∨
        (1700000001000 : Int) > 1700000000000 + scanCooldown) := by
  decide

/-- C10, amended: with a lastScanned record, the detection is emitted (lastScanned
overwritten with its data, type and the time now, onScan called once when a callback is set,
scanning paused) exactly when its code differs from lastScanned.data or now is at least
lastScanned.timestamp + 1000; otherwise the state is unchanged.  Without a lastScanned record
it is always emitted. -/
theorem handleDetectedCode_debounce :
    scanCooldown = 1000 ∧
    (∀ (st : Scanner) (last : LastScanned) (d : Detection) (now : Int),
      st.lastScanned = some last →
        (handleDetectedCode st d now = emitted st d now ↔
          (d.data ≠ last.data ∨ last.timestamp + scanCooldown ≤ now)) ∧
        (handleDetectedCode st d now = st ↔
          ¬ (d.data ≠ last.data ∨ last.timestamp + scanCooldown ≤ now))) ∧
    (∀ (st : Scanner) (d : Detection) (now : Int),
      st.lastScanned = none → handleDetectedCode st d now = emitted st d now) := by
  refine ⟨rfl, ?_, ?_⟩
  · intro st last d now hl
    have hrep : isRepeat st d now = true ↔
        ¬ (d.data ≠ last.data ∨ last.timestamp + scanCooldown ≤ now) := by
      simp only [isRepeat, hl, decide_eq_true_eq, not_or, not_not, not_le]
      constructor
      · rintro ⟨h1, h2⟩
        exact ⟨h1, by omega⟩
      · rintro ⟨h1, h2⟩
        exact ⟨h1, by omega⟩
    rw [handleDetectedCode_cases]
    by_cases hr : isRepeat st d now = true
    · rw [if_pos hr]
      have hc := hrep.1 hr
      exact ⟨⟨fun h => absurd h.symm (emitted_ne st d now), fun h => absurd h hc⟩,
        ⟨fun _ => hc, fun _ => rfl⟩⟩
    · rw [if_neg hr]
      have hc : d.data ≠ last.data ∨ last.timestamp + scanCooldown ≤ now := by
        by_contra hc
        exact hr (hrep.2 hc)
      exact ⟨⟨fun _ => hc, fun _ => rfl⟩,
        ⟨fun h => absurd h (emitted_ne st d now), fun h => absurd hc h⟩⟩
  · intro st d now hl
    rw [handleDetectedCode_cases]
    have : isRepeat st d now = false := by simp [isRepeat, hl]
    rw [this]
    rfl

theorem handleDetectedCode_debounce_witness :
    handleDetectedCode
        ⟨true, true, some ⟨"BAR-000600".toList, "barcode", 1700000000000⟩, [], []⟩
        ⟨"barcode", "BAR-000600".toList⟩ 1700000001000 =
      emitted ⟨true, true, some ⟨"BAR-000600".toList, "barcode", 1700000000000⟩, [], []⟩
        ⟨"barcode", "BAR-000600".toList⟩ 1700000001000 :=
  ((handleDetectedCode_debounce.2.1
    ⟨true, true, some ⟨"BAR-000600".toList, "barcode", 1700000000000⟩, [], []⟩
    ⟨"BAR-000600".toList, "barcode", 1700000000000⟩ ⟨"barcode", "BAR-000600".toList⟩
    1700000001000 rfl).1).2 (Or.inr (by decide))

theorem isRepeat_iff (st : Scanner) (last : LastScanned) (d : Detection) (now : Int)
    (hl : st.lastScanned = some last) :
    isRepeat st d now = true ↔ d.data = last.data ∧ now - last.timestamp < scanCooldown := by
  simp [isRepeat, hl]

theorem isRepeat_of_none (st : Scanner) (d : Detection) (now : Int)
    (hl : st.lastScanned = none) : isRepeat st d now = false := by
  simp [isRepeat, hl]

/-- C11, as stated, fails: the scanner as constructed by default has no onScan callback
(`onScan: null`).  Handling `BAR-000600` at time 1700000000000 and again 999 ms later calls
onScan zero times, not once, and handling it at the same time and again 1001 ms later calls
onScan zero times, not twice. -/
theorem handleDetectedCode_no_callback :
    (handleDetectedCode
        (handleDetectedCode ⟨false, true, none, [], []⟩ ⟨"barcode", "BAR-000600".toList⟩
          1700000000000)
        ⟨"barcode", "BAR-000600".toList⟩ (1700000000000 + scanCooldown - 1)).onScanCalls.length =
        0 ∧
      (handleDetectedCode
        (handleDetectedCode ⟨false, true, none, [], []⟩ ⟨"barcode", "BAR-000600".toList⟩
          1700000000000)
        ⟨"barcode", "BAR-000600".toList⟩ (1700000000000 + scanCooldown + 1)).onScanCalls.length =
        0 := by
  decide

/-- C11, amended: from a state without a lastScanned record, handling a code at time t and
the same code again at t + 1000 - 1 emits it once (the second handling leaves the state
unchanged), and handling it at t and at t + 1000 + 1 emits it twice.  Each emission calls
onScan once when an onScan callback is set: with a callback onScan is called exactly once in
the first case and exactly twice in the second, without one it is not called. -/
theorem handleDetectedCode_debounce_law (st : Scanner) (d1 d2 : Detection) (t : Int)
    (hnone : st.lastScanned = none) (hsame : d2.data = d1.data) :
    (handleDetectedCode (handleDetectedCode st d1 t) d2 (t + scanCooldown - 1) =
        emitted st d1 t ∧
      (handleDetectedCode (handleDetectedCode st d1 t) d2 (t + scanCooldown - 1)).onScanCalls =
        st.onScanCalls ++
          (if st.hasOnScan = true then
            [⟨d1.data, d1.type, (validateCode d1.data).valid, (validateCode d1.data).type⟩]
          else [])) ∧
    (handleDetectedCode (handleDetectedCode st d1 t) d2 (t + scanCooldown + 1) =
        emitted (emitted st d1 t) d2 (t + scanCooldown + 1) ∧
      (handleDetectedCode (handleDetectedCode st d1 t) d2 (t + scanCooldown + 1)).onScanCalls =
        st.onScanCalls ++
          (if st.hasOnScan = true then
            [⟨d1.data, d1.type, (validateCode d1.data).valid, (validateCode d1.data).type⟩,
              ⟨d2.data, d2.type, (validateCode d2.data).valid, (validateCode d2.data).type⟩]
          else [])) := by
  have h1 : handleDetectedCode st d1 t = emitted st d1 t := by
    rw [handleDetectedCode_cases, isRepeat_of_none st d1 t hnone]
    rfl
  have hl : (emitted st d1 t).lastScanned = some ⟨d1.data, d1.type, t⟩ := rfl
  have hr1 : isRepeat (emitted st d1 t) d2 (t + scanCooldown - 1) = true :=
    (isRepeat_iff _ _ _ _ hl).2 ⟨hsame, by simp only [scanCooldown]; omega⟩
  have hr2 : ¬ isRepeat (emitted st d1 t) d2 (t + scanCooldown + 1) = true := fun h => by
    have := ((isRepeat_iff _ _ _ _ hl).1 h).2
    simp only [scanCooldown] at this
    omega
  have e1 : handleDetectedCode (emitted st d1 t) d2 (t + scanCooldown - 1) = emitted st d1 t := by
    rw [handleDetectedCode_cases, if_pos hr1]
  have e2 : handleDetectedCode (emitted st d1 t) d2 (t + scanCooldown + 1) =
      emitted (emitted st d1 t) d2 (t + scanCooldown + 1) := by
    rw [handleDetectedCode_cases, if_neg hr2]
  rw [h1, e1, e2]
  refine ⟨⟨rfl, rfl⟩, rfl, ?_⟩
  cases hcb : st.hasOnScan <;> simp [emitted, hcb]

theorem handleDetectedCode_debounce_law_witness :
    (handleDetectedCode
        (handleDetectedCode ⟨true, true, none, [], []⟩ ⟨"barcode", "BAR-000600".toList⟩
          1700000000000)
        ⟨"barcode", "BAR-000600".toList⟩ (1700000000000 + scanCooldown - 1)).onScanCalls =
        [⟨"BAR-000600".toList, "barcode", true, "scanned"⟩] ∧
      (handleDetectedCode
        (handleDetectedCode ⟨true, true, none, [], []⟩ ⟨"barcode", "BAR-000600".toList⟩
          1700000000000)
        ⟨"barcode", "BAR-000600".toList⟩ (1700000000000 + scanCooldown + 1)).onScanCalls =
        [⟨"BAR-000600".toList, "barcode", true, "scanned"⟩,
          ⟨"BAR-000600".toList, "barcode", true, "scanned"⟩] :=
  ⟨((handleDetectedCode_debounce_law ⟨true, true, none, [], []⟩
      ⟨"barcode", "BAR-000600".toList⟩ ⟨"barcode", "BAR-000600".toList⟩ 1700000000000
      rfl rfl).1.2).trans (by decide),
    ((handleDetectedCode_debounce_law ⟨true, true, none, [], []⟩
      ⟨"barcode", "BAR-000600".toList⟩ ⟨"barcode", "BAR-000600".toList⟩ 1700000000000
      rfl rfl).2.2).trans (by decide)⟩

/-- C12: when lastScanned exists, the detection carries the same data and
now - lastScanned.timestamp < 1000, handleDetectedCode returns the state unchanged:
lastScanned and the scanning flag are kept, onScan is not called and no pause timer is
registered. -/
theorem handleDetectedCode_repeat_dropped (st : Scanner) (last : LastScanned) (d : Detection)
    (now : Int) (hl : st.lastScanned = some last) (hd : d.data = last.data)
    (hn : now - last.timestamp < 1000) :
    handleDetectedCode st d now = st ∧
      (handleDetectedCode st d now).lastScanned = some last ∧
      (handleDetectedCode st d now).scanning = st.scanning ∧
      (handleDetectedCode st d now).onScanCalls = st.onScanCalls ∧
      (handleDetectedCode st d now).pauseTimers = st.pauseTimers := by
  have h : handleDetectedCode st d now = st := by
    rw [handleDetectedCode_cases, if_pos ((isRepeat_iff st last d now hl).2 ⟨hd, hn⟩)]
  rw [h]
  exact ⟨rfl, hl, rfl, rfl, rfl⟩

theorem handleDetectedCode_repeat_dropped_witness :
    handleDetectedCode
        ⟨true, true, some ⟨"BAR-000600".toList, "barcode", 1700000000000⟩, [], []⟩
        ⟨"barcode", "BAR-000600".toList⟩ 1700000000999 =
      ⟨true, true, some ⟨"BAR-000600".toList, "barcode", 1700000000000⟩, [], []⟩ :=
  (handleDetectedCode_repeat_dropped
    ⟨true, true, some ⟨"BAR-000600".toList, "barcode", 1700000000000⟩, [], []⟩
    ⟨"BAR-000600".toList, "barcode", 1700000000000⟩ ⟨"barcode", "BAR-000600".toList⟩
    1700000000999 rfl rfl (by decide)).1

/-! ### The controller -/

theorem stop_eq (c : Controller) :
    stop c =
      { scan := { c.scan with scanning := false }
        facingMode := c.facingMode
        hasOnError := c.hasOnError
        onErrorCalls := c.onErrorCalls
        stream := none
        videoElement := c.videoElement.map fun _ => none
        frameRequestId := none
        pendingFrames :=
          match c.frameRequestId with
          | some h => c.pendingFrames.erase h
          | none => c.pendingFrames
        stoppedStreams :=
          match c.stream with
          | some s => c.stoppedStreams ++ [s]
          | none => c.stoppedStreams
        startTimers := c.startTimers } := by
  obtain ⟨scan, fm, he, ec, stream, video, fid, pf, ss, stt⟩ := c
  cases fid <;> cases stream <;> cases video <;> rfl

/-- C13: stop is idempotent.  After one call the scanning flag is false, frameRequestId and
stream are null and the video element, when there is one, has no source; a second call
returns the same state, so it stops no further track and cancels no further frame.  The
function is total: no call of stop fails. -/
theorem stop_idempotent (c : Controller) :
    stop (stop c) = stop c ∧
      (stop c).scan.scanning = false ∧
      (stop c).frameRequestId = none ∧
      (stop c).stream = none ∧
      (∀ src, (stop c).videoElement = some src → src = none) ∧
      (stop (stop c)).stoppedStreams = (stop c).stoppedStreams ∧
      (stop (stop c)).pendingFrames = (stop c).pendingFrames := by
  have h : stop (stop c) = stop c := by
    rw [stop_eq (stop c), stop_eq c]
    cases c.videoElement <;> rfl
  refine ⟨h, ?_, ?_, ?_, ?_, by rw [h], by rw [h]⟩
  · rw [stop_eq]
  · rw [stop_eq]
  · rw [stop_eq]
  · intro src hsrc
    rw [stop_eq] at hsrc
    cases hv : c.videoElement with
    | none => simp [hv] at hsrc
    | some v => simpa [hv] using hsrc.symm

theorem scanFrame_scan (c : Controller) (inp : FrameInput) :
    (scanFrame c inp).scan =
      if c.scan.scanning = false ∨ c.videoElement = none ∨ inp.readyState = 0 then c.scan
      else processFrame c.scan inp.imageData inp.tExtract inp.now := by
  unfold scanFrame
  split_ifs <;> rfl

theorem scanFrame_frame (c : Controller) (inp : FrameInput) :
    (scanFrame c inp).facingMode = c.facingMode ∧ (scanFrame c inp).stream = c.stream ∧
      (scanFrame c inp).videoElement = c.videoElement ∧
      (scanFrame c inp).startTimers = c.startTimers ∧
      (scanFrame c inp).stoppedStreams = c.stoppedStreams := by
  unfold scanFrame
  split_ifs <;> exact ⟨rfl, rfl, rfl, rfl, rfl⟩

theorem scanFrame_of_not_scanning (c : Controller) (inp : FrameInput)
    (h : c.scan.scanning = false) : scanFrame c inp = c := by
  unfold scanFrame
  rw [if_pos (Or.inl h)]

theorem handleDetectedCode_of_none (st : Scanner) (d : Detection) (now : Int)
    (hl : st.lastScanned = none) : handleDetectedCode st d now = emitted st d now := by
  rw [handleDetectedCode_cases, isRepeat_of_none st d now hl]
  rfl

/-- A frame either leaves the detection state as it is or ends in an emission. -/
theorem processFrame_cases (st : Scanner) (img : ImageData) (t now : Int) :
    processFrame st img t now = st ∨ ∃ d, processFrame st img t now = emitted st d now := by
  have h : ∀ d, handleDetectedCode st d now = st ∨
      ∃ d2, handleDetectedCode st d now = emitted st d2 now := fun d => by
    rw [handleDetectedCode_cases]
    split_ifs
    · exact Or.inl rfl
    · exact Or.inr ⟨d, rfl⟩
  unfold processFrame
  split
  · exact h _
  · split
    · exact h _
    · exact Or.inl rfl

theorem processFrame_of_no_detection (st : Scanner) (img : ImageData) (t now : Int)
    (hq : detectQRCode img t = none) (hb : detectBarcode img = none) :
    processFrame st img t now = st := by
  simp only [processFrame, hq, hb]

theorem processFrame_of_candidates (st : Scanner) (img : ImageData) (t now : Int)
    (h : 3 ≤ (centerCandidates img).length) :
    processFrame st img t now =
      handleDetectedCode st ⟨"qr", extractQRData (centerCandidates img) t⟩ now := by
  have hq : detectQRCode img t = some ⟨"qr", extractQRData (centerCandidates img) t⟩ := by
    rw [detectQRCode_eq, if_pos h]
  simp only [processFrame, hq]

theorem detectQRCode_light (w h : Nat) (t : Int) :
    detectQRCode (uniformImage w h 255) t = none := by
  rw [detectQRCode_eq, centerCandidates_light]
  rfl

theorem processFrame_lightInput (st : Scanner) (t now : Int) :
    processFrame st (uniformImage 1 1 255) t now = st :=
  processFrame_of_no_detection st _ t now (detectQRCode_light 1 1 t) (by decide)

theorem processFrame_darkInput (st : Scanner) (t now : Int) (hl : st.lastScanned = none) :
    processFrame st (uniformImage 11 1 0) t now =
      emitted st ⟨"qr", extractQRData (centerCandidates (uniformImage 11 1 0)) t⟩ now := by
  rw [processFrame_of_candidates st _ t now centerCandidates_dark_row,
    handleDetectedCode_of_none st _ now hl]

theorem start_some (c : Controller) (s : Nat) (inp : FrameInput) :
    start c (some s) inp =
      scanFrame
        { c with
          stream := some s
          videoElement := some (some s)
          scan := { c.scan with scanning := true } } inp := rfl

theorem start_some_scan (c : Controller) (s : Nat) (inp : FrameInput) :
    (start c (some s) inp).scan =
      if inp.readyState = 0 then { c.scan with scanning := true }
      else processFrame { c.scan with scanning := true } inp.imageData inp.tExtract inp.now := by
  rw [start_some, scanFrame_scan]
  by_cases h : inp.readyState = 0
  · rw [if_pos (Or.inr (Or.inr h)), if_pos h]
  · rw [if_neg (by simp [h]), if_neg h]

theorem start_none_scan (c : Controller) (inp : FrameInput) :
    (start c none inp).scan = c.scan := by
  unfold start
  simp only
  split_ifs <;> rfl

theorem stop_scan (c : Controller) : (stop c).scan = { c.scan with scanning := false } := by
  rw [stop_eq]

theorem switchCamera_of_stream (c : Controller) (now : Int) (s : Nat) (hs : c.stream = some s) :
    switchCamera c now =
      { stop { c with
          facingMode := if c.facingMode = "environment" then "user" else "environment" } with
        startTimers := c.startTimers ++ [now + 500] } := by
  unfold switchCamera
  rw [hs]
  simp only [stop_eq]

theorem switchCamera_of_no_stream (c : Controller) (now : Int) (hs : c.stream = none) :
    switchCamera c now = c := by
  unfold switchCamera
  rw [hs]

theorem switchCamera_scan (c : Controller) (now : Int) :
    (switchCamera c now).scan = c.scan ∨
      (switchCamera c now).scan = { c.scan with scanning := false } := by
  cases hs : c.stream with
  | none => exact Or.inl (by rw [switchCamera_of_no_stream c now hs])
  | some s => exact Or.inr (by rw [switchCamera_of_stream c now s hs, stop_eq])

/-- C14, as stated, fails: the controller accepted `BAR-000600` at time 1700000000000; stop
keeps that record, and after stop and a successful start (first frame without a code, at
+300 ms) the same code detected at +500 ms leaves the state unchanged: it is suppressed, and
onScan has still been called only once. -/
theorem stop_keeps_lastScanned_example :
    (stop acceptedExample).scan.lastScanned =
        some ⟨"BAR-000600".toList, "barcode", 1700000000000⟩ ∧
      (start (stop acceptedExample) (some 2) (lightInput 1700000000300 3)).scan.scanning = true ∧
      handleDetectedCode
          (start (stop acceptedExample) (some 2) (lightInput 1700000000300 3)).scan
          ⟨"barcode", "BAR-000600".toList⟩ 1700000000500 =
        (start (stop acceptedExample) (some 2) (lightInput 1700000000300 3)).scan ∧
      (handleDetectedCode
          (start (stop acceptedExample) (some 2) (lightInput 1700000000300 3)).scan
          ⟨"barcode", "BAR-000600".toList⟩ 1700000000500).onScanCalls =
        [⟨"BAR-000600".toList, "barcode", true, "scanned"⟩] := by
  have hs : (start (stop acceptedExample) (some 2) (lightInput 1700000000300 3)).scan =
      ⟨true, true, some ⟨"BAR-000600".toList, "barcode", 1700000000000⟩,
        [⟨"BAR-000600".toList, "barcode", true, "scanned"⟩], [1700000001000]⟩ := by
    rw [start_some_scan, if_neg (by decide)]
    exact processFrame_lightInput _ _ _
  rw [hs]
  exact ⟨rfl, rfl, by decide, by decide⟩

/-- C14, amended: stop keeps lastScanned, and so does a following successful start whose first
frame holds no code.  After such a stop/start cycle a detection with the data of the record is
suppressed (state unchanged) while now - timestamp < 1000, and emitted from then on. -/
theorem stop_keeps_lastScanned :
    (∀ c : Controller, (stop c).scan.lastScanned = c.scan.lastScanned) ∧
    (∀ (c : Controller) (s : Nat) (inp : FrameInput),
      detectQRCode inp.imageData inp.tExtract = none → detectBarcode inp.imageData = none →
      (start (stop c) (some s) inp).scan.lastScanned = c.scan.lastScanned) ∧
    (∀ (c : Controller) (s : Nat) (inp : FrameInput) (last : LastScanned) (d : Detection)
      (now : Int),
      detectQRCode inp.imageData inp.tExtract = none → detectBarcode inp.imageData = none →
      c.scan.lastScanned = some last → d.data = last.data →
      (now - last.timestamp < scanCooldown →
        handleDetectedCode (start (stop c) (some s) inp).scan d now =
          (start (stop c) (some s) inp).scan) ∧
      (scanCooldown ≤ now - last.timestamp →
        handleDetectedCode (start (stop c) (some s) inp).scan d now =
          emitted (start (stop c) (some s) inp).scan d now)) := by
  have hstart : ∀ (c : Controller) (s : Nat) (inp : FrameInput),
      detectQRCode inp.imageData inp.tExtract = none → detectBarcode inp.imageData = none →
      (start (stop c) (some s) inp).scan.lastScanned = c.scan.lastScanned := by
    intro c s inp hq hb
    rw [start_some_scan, processFrame_of_no_detection _ _ _ _ hq hb, stop_scan]
    split_ifs <;> rfl
  refine ⟨fun c => by rw [stop_scan], hstart, ?_⟩
  intro c s inp last d now hq hb hl hd
  have hl2 : (start (stop c) (some s) inp).scan.lastScanned = some last := by
    rw [hstart c s inp hq hb, hl]
  constructor
  · intro hn
    rw [handleDetectedCode_cases, if_pos ((isRepeat_iff _ last d now hl2).2 ⟨hd, hn⟩)]
  · intro hn
    rw [handleDetectedCode_cases, if_neg]
    intro hr
    have := ((isRepeat_iff _ last d now hl2).1 hr).2
    omega

theorem stop_keeps_lastScanned_witness :
    handleDetectedCode
        (start (stop acceptedExample) (some 2) (lightInput 1700000000300 3)).scan
        ⟨"barcode", "BAR-000600".toList⟩ 1700000000500 =
      (start (stop acceptedExample) (some 2) (lightInput 1700000000300 3)).scan :=
  (stop_keeps_lastScanned.2.2 acceptedExample 2 (lightInput 1700000000300 3)
    ⟨"BAR-000600".toList, "barcode", 1700000000000⟩ ⟨"barcode", "BAR-000600".toList⟩
    1700000000500 (detectQRCode_light 1 1 _) (by decide) rfl rfl).1 (by decide)

theorem step_restartElapsed (c : Controller) (media : Option Nat) (inp : FrameInput)
    (due : Int) (rest : List Int) (h : c.startTimers = due :: rest) :
    step c (.restartElapsed media inp) = start { c with startTimers := rest } media inp := by
  simp only [step, h]

theorem step_pauseElapsed (c : Controller) (inp : FrameInput) (due : Int) (rest : List Int)
    (h : c.scan.pauseTimers = due :: rest) :
    step c (.pauseElapsed inp) =
      resumeScanning { c with scan := { c.scan with pauseTimers := rest } } inp := by
  simp only [step, h]

theorem start_frame (c : Controller) (s : Nat) (inp : FrameInput) :
    (start c (some s) inp).facingMode = c.facingMode ∧
      (start c (some s) inp).stream = some s ∧
      (start c (some s) inp).videoElement = some (some s) ∧
      (start c (some s) inp).startTimers = c.startTimers := by
  rw [start_some]
  obtain ⟨h1, h2, h3, h4, -⟩ := scanFrame_frame
    { c with
      stream := some s
      videoElement := some (some s)
      scan := { c.scan with scanning := true } } inp
  exact ⟨h1, h2, h3, h4⟩

/-- C15, as stated, fails: the controller scans on stream 1 through the rear camera;
switchCamera is called and, 500 ms later, the restart timer runs start, which obtains stream
2.  The first frame is an all-dark frame, it is emitted at once, and start returns with the
scanning flag false. -/
theorem switchCamera_restart_example :
    (run scanningExample
        [.switchCamera 1700000000000,
          .restartElapsed (some 2) (darkInput 1700000000500 2)]).scan.scanning = false ∧
      (run scanningExample
        [.switchCamera 1700000000000,
          .restartElapsed (some 2) (darkInput 1700000000500 2)]).stream = some 2 ∧
      (run scanningExample
        [.switchCamera 1700000000000,
          .restartElapsed (some 2) (darkInput 1700000000500 2)]).facingMode = "user" := by
  have h1 : step scanningExample (.switchCamera 1700000000000) =
      { scan := ⟨true, false, none, [], []⟩
        facingMode := "user"
        hasOnError := false
        onErrorCalls := 0
        stream := none
        videoElement := some none
        frameRequestId := none
        pendingFrames := []
        stoppedStreams := [1]
        startTimers := [1700000000500] } := by
    decide
  have h2 : run scanningExample
      [.switchCamera 1700000000000, .restartElapsed (some 2) (darkInput 1700000000500 2)] =
      start
        { scan := ⟨true, false, none, [], []⟩
          facingMode := "user"
          hasOnError := false
          onErrorCalls := 0
          stream := none
          videoElement := some none
          frameRequestId := none
          pendingFrames := []
          stoppedStreams := [1]
          startTimers := [] }
        (some 2) (darkInput 1700000000500 2) := by
    simp only [run, List.foldl_cons, List.foldl_nil, h1]
    exact step_restartElapsed _ _ _ 1700000000500 [] rfl
  rw [h2]
  refine ⟨?_, (start_frame _ 2 _).2.1, (start_frame _ 2 _).1⟩
  rw [start_some_scan, if_neg (by decide)]
  exact congrArg Scanner.scanning (processFrame_darkInput _ _ _ rfl)

/-- C15, amended: without a stream switchCamera changes nothing.  With a stream it toggles
facingMode once (`environment` to `user`, anything else to `environment`), stops the scanner
(flag false, stream released) and registers the restart 500 ms later.  When the restart
timer runs and start obtains a stream, facingMode is kept, scanning is switched on and the
first frame is scanned at once: the flag is true when start returns unless that frame is
emitted, which pauses scanning again. -/
theorem switchCamera_restart :
    (∀ (c : Controller) (now : Int), c.stream = none → switchCamera c now = c) ∧
    (∀ (c : Controller) (now : Int) (s : Nat), c.stream = some s →
      (c.facingMode = "environment" → (switchCamera c now).facingMode = "user") ∧
      (c.facingMode ≠ "environment" → (switchCamera c now).facingMode = "environment") ∧
      (c.facingMode = "user" → (switchCamera c now).facingMode = "environment") ∧
      switchCamera c now =
        { stop { c with
            facingMode := if c.facingMode = "environment" then "user" else "environment" } with
          startTimers := c.startTimers ++ [now + 500] } ∧
      (switchCamera c now).scan.scanning = false ∧
      (switchCamera c now).stream = none ∧
      (switchCamera c now).stoppedStreams = c.stoppedStreams ++ [s]) ∧
    (∀ (c : Controller) (s : Nat) (inp : FrameInput) (due : Int) (rest : List Int),
      c.startTimers = due :: rest →
      (step c (.restartElapsed (some s) inp)).facingMode = c.facingMode ∧
      (step c (.restartElapsed (some s) inp)).stream = some s ∧
      (step c (.restartElapsed (some s) inp)).startTimers = rest ∧
      ((step c (.restartElapsed (some s) inp)).scan = { c.scan with scanning := true } ∨
        ∃ d, (step c (.restartElapsed (some s) inp)).scan =
          emitted { c.scan with scanning := true } d inp.now)) := by
  refine ⟨fun c now hs => switchCamera_of_no_stream c now hs, ?_, ?_⟩
  · intro c now s hs
    have h := switchCamera_of_stream c now s hs
    have hfm : (switchCamera c now).facingMode =
        if c.facingMode = "environment" then "user" else "environment" := by
      rw [h, stop_eq]
    refine ⟨fun he => by rw [hfm, if_pos he], fun hne => by rw [hfm, if_neg hne],
      fun hu => ?_, h, ?_, ?_, ?_⟩
    · rw [hfm, if_neg]
      rw [hu]
      decide
    · rw [h, stop_eq]
    · rw [h, stop_eq]
    · rw [h, stop_eq]
      simp only [hs]
  · intro c s inp due rest ht
    rw [step_restartElapsed c (some s) inp due rest ht]
    obtain ⟨h1, h2, -, h4⟩ := start_frame { c with startTimers := rest } s inp
    refine ⟨h1, h2, h4, ?_⟩
    rw [start_some_scan]
    split_ifs
    · exact Or.inl rfl
    · exact processFrame_cases _ _ _ _

theorem switchCamera_restart_witness :
    (switchCamera scanningExample 1700000000000).facingMode = "user" ∧
      (switchCamera scanningExample 1700000000000).scan.scanning = false :=
  ⟨(switchCamera_restart.2.1 scanningExample 1700000000000 1 rfl).1 rfl,
    (switchCamera_restart.2.1 scanningExample 1700000000000 1 rfl).2.2.2.2.1⟩

theorem scanner_eta_of_not_scanning (st : Scanner) (h : st.scanning = false) :
    { st with scanning := false } = st := by
  cases st
  simp only at h
  subst h
  rfl

theorem step_keeps_paused (c : Controller) (e : Event) (he : e.switchesOn = false)
    (hc : c.scan.scanning = false) : (step c e).scan = c.scan := by
  have hcs := scanner_eta_of_not_scanning c.scan hc
  cases e with
  | start media inp =>
    cases media with
    | none => exact start_none_scan c inp
    | some s => simp [Event.switchesOn] at he
  | stop => exact (stop_scan c).trans hcs
  | switchCamera now =>
    rcases switchCamera_scan c now with h | h
    · exact h
    · exact h.trans hcs
  | tick inp =>
    simp only [step]
    split
    · rfl
    · rename_i rest _
      rw [scanFrame_of_not_scanning { c with pendingFrames := rest } inp hc]
  | pauseElapsed inp => simp [Event.switchesOn] at he
  | restartElapsed media inp =>
    cases media with
    | none =>
      simp only [step]
      split
      · rfl
      · exact start_none_scan _ inp
    | some s => simp [Event.switchesOn] at he

theorem resumeScanning_scan (c : Controller) (inp : FrameInput) :
    (resumeScanning c inp).scan = { c.scan with scanning := true } ∨
      ∃ d, (resumeScanning c inp).scan = emitted { c.scan with scanning := true } d inp.now := by
  rw [resumeScanning, scanFrame_scan]
  split
  · exact Or.inl rfl
  · exact processFrame_cases _ _ _ _

/-- C20, as stated, fails: from the constructed state, start obtains stream 1 and its first
frame, all dark, is emitted at time 1700000000000, which starts a pause due at +1000 ms;
start is called again at +100 ms, obtains stream 2 and scans a frame without a code.  The
scanning flag is then true although the pause timer is still pending and its due time lies
900 ms ahead. -/
theorem pause_invariant_example :
    (run (Controller.initial true false "environment")
        [.start (some 1) (darkInput 1700000000000 1),
          .start (some 2) (lightInput 1700000000100 2)]).scan.scanning = true ∧
      (run (Controller.initial true false "environment")
        [.start (some 1) (darkInput 1700000000000 1),
          .start (some 2) (lightInput 1700000000100 2)]).scan.pauseTimers =
        [1700000001000] ∧
      (1700000000100 : Int) < 1700000001000 := by
  have e1 : (start (Controller.initial true false "environment") (some 1)
      (darkInput 1700000000000 1)).scan =
      emitted ⟨true, true, none, [], []⟩
        ⟨"qr", extractQRData (centerCandidates (uniformImage 11 1 0)) 1700000000000⟩
        1700000000000 := by
    rw [start_some_scan, if_neg (by decide)]
    exact processFrame_darkInput _ _ _ rfl
  have h2 : (run (Controller.initial true false "environment")
      [.start (some 1) (darkInput 1700000000000 1),
        .start (some 2) (lightInput 1700000000100 2)]).scan =
      { emitted ⟨true, true, none, [], []⟩
          ⟨"qr", extractQRData (centerCandidates (uniformImage 11 1 0)) 1700000000000⟩
          1700000000000 with scanning := true } := by
    simp only [run, List.foldl_cons, List.foldl_nil]
    have hstep : ∀ c : Controller, step (step c (.start (some 1) (darkInput 1700000000000 1)))
        (.start (some 2) (lightInput 1700000000100 2)) =
        start (start c (some 1) (darkInput 1700000000000 1)) (some 2)
          (lightInput 1700000000100 2) := fun _ => rfl
    rw [hstep, start_some_scan, if_neg (by decide)]
    simp only [e1]
    exact processFrame_lightInput _ _ _
  rw [h2]
  exact ⟨rfl, rfl, by decide⟩

/-- C20, amended: an emission leaves the scanning flag false and registers a pause timer due
1000 ms later.  From a state with the flag false, every sequence of stop, switchCamera and
tick events and of starts that obtain no stream keeps the flag false, and tick events and
starts that obtain no stream leave the whole scan state, pause timers included, unchanged.
A start that obtains a stream switches scanning on and scans its first frame at once: the
flag is true when it returns, with the pause timers as they were, when that frame holds no
code, and in general unless that frame is emitted, which pauses again.  On a controller that
holds a stream, the callback of the pause timer switches scanning on and scans a frame at
once: the flag is true afterwards unless that frame is emitted, which pauses again. -/
theorem pause_invariant :
    (∀ (st : Scanner) (d : Detection) (now : Int), isRepeat st d now = false →
      (handleDetectedCode st d now).scanning = false ∧
        (handleDetectedCode st d now).pauseTimers = st.pauseTimers ++ [now + 1000]) ∧
    (∀ (c : Controller) (events : List Event), (∀ e ∈ events, Event.switchesOn e = false) →
      c.scan.scanning = false → (run c events).scan.scanning = false) ∧
    (∀ (c : Controller) (events : List Event),
      (∀ e ∈ events, (∃ inp, e = Event.tick inp) ∨ ∃ inp, e = Event.start none inp) →
      c.scan.scanning = false → (run c events).scan = c.scan) ∧
    (∀ (c : Controller) (s : Nat) (inp : FrameInput),
      (detectQRCode inp.imageData inp.tExtract = none → detectBarcode inp.imageData = none →
        (start c (some s) inp).scan = { c.scan with scanning := true }) ∧
      ((start c (some s) inp).scan = { c.scan with scanning := true } ∨
        ∃ d, (start c (some s) inp).scan =
          emitted { c.scan with scanning := true } d inp.now)) ∧
    (∀ (c : Controller) (s : Nat) (inp : FrameInput) (due : Int) (rest : List Int),
      c.stream = some s → c.scan.pauseTimers = due :: rest →
      (step c (.pauseElapsed inp)).scan =
          { c.scan with scanning := true, pauseTimers := rest } ∨
        ∃ d, (step c (.pauseElapsed inp)).scan =
          emitted { c.scan with scanning := true, pauseTimers := rest } d inp.now) := by
  have hrun : ∀ (events : List Event) (c : Controller),
      (∀ e ∈ events, Event.switchesOn e = false) → c.scan.scanning = false →
      (run c events).scan = c.scan := by
    intro events
    induction events with
    | nil => exact fun _ _ _ => rfl
    | cons e es ih =>
      intro c hes hc
      have hstep := step_keeps_paused c e (hes e (by simp)) hc
      have := ih (step c e) (fun e2 he2 => hes e2 (by simp [he2])) (by rw [hstep]; exact hc)
      simp only [run, List.foldl_cons] at this ⊢
      rw [this, hstep]
  refine ⟨?_, ?_, ?_, ?_, ?_⟩
  · intro st d now hr
    rw [handleDetectedCode_cases, hr]
    exact ⟨rfl, rfl⟩
  · intro c events hes hc
    rw [hrun events c hes hc]
    exact hc
  · intro c events hes hc
    refine hrun events c (fun e he => ?_) hc
    rcases hes e he with ⟨inp, rfl⟩ | ⟨inp, rfl⟩ <;> rfl
  · intro c s inp
    refine ⟨fun hq hb => ?_, ?_⟩
    · rw [start_some_scan, processFrame_of_no_detection _ _ _ _ hq hb]
      split_ifs <;> rfl
    · rw [start_some_scan]
      split_ifs
      · exact Or.inl rfl
      · exact processFrame_cases _ _ _ _
  · intro c s inp due rest _ ht
    rw [step_pauseElapsed c inp due rest ht]
    exact resumeScanning_scan _ inp

theorem pause_invariant_witness :
    (run acceptedExample [.tick (lightInput 1700000000016 3), .stop]).scan.scanning = false ∧
      (run acceptedExample [.tick (lightInput 1700000000016 3)]).scan = acceptedExample.scan :=
  ⟨pause_invariant.2.1 acceptedExample [.tick (lightInput 1700000000016 3), .stop]
      (by decide) rfl,
    pause_invariant.2.2.1 acceptedExample [.tick (lightInput 1700000000016 3)]
      (fun e he => Or.inl ⟨lightInput 1700000000016 3, List.mem_singleton.1 he⟩) rfl⟩

/-! ### isPositionPattern -/

theorem isDarkAt_eq_pixelDark (img : ImageData) (px py : Nat) :
    isDarkAt img ((py * img.width + px) * 4) = pixelDark img px py := by
  unfold isDarkAt pixelDark
  split
  · rename_i r g b h1 h2 h3
    have hq : ((r : ℚ) + g + b) / 3 < 128 ↔ r + g + b < 128 * 3 := by
      rw [div_lt_iff₀ (by norm_num)]
      exact_mod_cast Iff.rfl
    simp only [h1, h2, h3, hq]
  · rfl

theorem foldl_nested {α β γ : Type} (g : γ → α → β → γ) (dys : List β) (dxs : List α)
    (acc : γ) :
    dys.foldl (fun acc dy => dxs.foldl (fun acc dx => g acc dx dy) acc) acc =
      (dys.flatMap fun dy => dxs.map fun dx => (dx, dy)).foldl
        (fun acc p => g acc p.1 p.2) acc := by
  induction dys generalizing acc with
  | nil => rfl
  | cons dy dys ih =>
    rw [List.foldl_cons, ih, List.flatMap_cons, List.foldl_append, List.foldl_map]

theorem foldl_count {α : Type} (inFrame dark : α → Bool) (ps : List α) (acc : Nat × Nat) :
    ps.foldl (fun acc p =>
        if inFrame p = true then
          if dark p = true then (acc.1 + 1, acc.2) else (acc.1, acc.2 + 1)
        else acc) acc =
      (acc.1 + (ps.filter inFrame).countP dark,
        acc.2 + (ps.filter inFrame).countP fun p => !dark p) := by
  induction ps generalizing acc with
  | nil => simp
  | cons p ps ih =>
    rw [List.foldl_cons, ih]
    by_cases h1 : inFrame p = true
    · by_cases h2 : dark p = true
      · simp [h1, h2]
        omega
      · simp [h1, h2]
        omega
    · simp [h1]

theorem forLoop_window : forLoop (-7) (7 + 1) 1 = windowOffsets := by
  decide

theorem countWindow_eq (img : ImageData) (x y : Int) :
    countWindow img x y = (darkCount img x y, lightCount img x y) := by
  have h := foldl_nested
    (fun (acc : Nat × Nat) (dx dy : Int) =>
      if 0 ≤ x + dx ∧ x + dx < img.width ∧ 0 ≤ y + dy ∧ y + dy < img.height then
        if isDarkAt img (((y + dy).toNat * img.width + (x + dx).toNat) * 4) = true then
          (acc.1 + 1, acc.2)
        else (acc.1, acc.2 + 1)
      else acc) windowOffsets windowOffsets (0, 0)
  have h2 := foldl_count
    (fun p : Int × Int => decide (0 ≤ p.1 ∧ p.1 < img.width ∧ 0 ≤ p.2 ∧ p.2 < img.height))
    (fun p : Int × Int => pixelDark img p.1.toNat p.2.toNat)
    (windowOffsets.flatMap fun dy => windowOffsets.map fun dx => (x + dx, y + dy)) (0, 0)
  have hmap : (windowOffsets.flatMap fun dy => windowOffsets.map fun dx => (x + dx, y + dy)) =
      (windowOffsets.flatMap fun dy => windowOffsets.map fun dx => (dx, dy)).map
        fun p => (x + p.1, y + p.2) := by
    rw [List.map_flatMap]
    simp only [List.map_map, Function.comp_def]
  unfold countWindow
  simp only [forLoop_window]
  rw [h]
  rw [hmap, List.foldl_map] at h2
  simp only [decide_eq_true_eq, zero_add, ← isDarkAt_eq_pixelDark] at h2
  rw [h2, darkCount, lightCount, windowPixels, hmap]
  simp only [isDarkAt_eq_pixelDark]

/-- C16: isPositionPattern holds exactly when darkCount > 2 * lightCount, the counts ranging
over the pixels of the window of radius 7 that lie inside the frame, a pixel being dark when
the mean of R, G, B is below 128 and light otherwise; in a frame that holds all its
`width * height * 4` channel values, every pixel of the frame has its three channels, and
it is dark exactly when R + G + B < 384. -/
theorem isPositionPattern_iff (img : ImageData) (x y : Int) :
    (isPositionPattern img x y = true ↔ darkCount img x y > 2 * lightCount img x y) ∧
      darkCount img x y + lightCount img x y = (windowPixels img x y).length ∧
      (∀ p ∈ windowPixels img x y, (x - 7 ≤ p.1 ∧ p.1 ≤ x + 7 ∧ y - 7 ≤ p.2 ∧ p.2 ≤ y + 7) ∧
        0 ≤ p.1 ∧ p.1 < img.width ∧ 0 ≤ p.2 ∧ p.2 < img.height) ∧
      (img.data.length = img.width * img.height * 4 →
        ∀ px py : Nat, px < img.width → py < img.height →
          ∃ r g b : Nat, img.data[(py * img.width + px) * 4]? = some r ∧
            img.data[(py * img.width + px) * 4 + 1]? = some g ∧
            img.data[(py * img.width + px) * 4 + 2]? = some b ∧
            (pixelDark img px py = true ↔ r + g + b < 384)) := by
  refine ⟨?_, ?_, ?_, ?_⟩
  · simp only [isPositionPattern, countWindow_eq, decide_eq_true_eq]
    constructor <;> intro h <;> omega
  · unfold darkCount lightCount
    induction windowPixels img x y with
    | nil => rfl
    | cons p ps ih =>
      cases hd : pixelDark img p.1.toNat p.2.toNat <;>
        simp [List.countP_cons, hd] <;> omega
  · intro p hp
    simp only [windowPixels, List.mem_filter, List.mem_flatMap, List.mem_map,
      decide_eq_true_eq] at hp
    obtain ⟨⟨dy, hdy, dx, hdx, rfl⟩, hin⟩ := hp
    refine ⟨?_, hin⟩
    simp only [windowOffsets, List.mem_cons, List.mem_nil_iff, or_false] at hdx hdy
    simp only
    omega
  · intro hwf px py hpx hpy
    have hlt : (py * img.width + px) * 4 + 3 < img.data.length := by
      rw [hwf]
      have h1 : py * img.width + px < img.width * img.height := by
        calc py * img.width + px < py * img.width + img.width := by omega
          _ = (py + 1) * img.width := by ring
          _ ≤ img.height * img.width := Nat.mul_le_mul_right _ hpy
          _ = img.width * img.height := Nat.mul_comm _ _
      omega
    have g0 := List.getElem?_eq_getElem
      (show (py * img.width + px) * 4 < img.data.length by omega)
    have g1 := List.getElem?_eq_getElem
      (show (py * img.width + px) * 4 + 1 < img.data.length by omega)
    have g2 := List.getElem?_eq_getElem
      (show (py * img.width + px) * 4 + 2 < img.data.length by omega)
    refine ⟨_, _, _, g0, g1, g2, ?_⟩
    rw [← isDarkAt_eq_pixelDark]
    simp only [isDarkAt, g0, g1, g2, decide_eq_true_eq]

theorem isPositionPattern_iff_witness :
    darkCount (uniformImage 3 3 0) 1 1 > 2 * lightCount (uniformImage 3 3 0) 1 1 ∧
      ¬ darkCount (uniformImage 3 3 255) 1 1 > 2 * lightCount (uniformImage 3 3 255) 1 1 :=
  ⟨(isPositionPattern_iff (uniformImage 3 3 0) 1 1).1.1 (by decide),
    fun h => absurd ((isPositionPattern_iff (uniformImage 3 3 255) 1 1).1.2 h) (by decide)⟩

/-! ### findPositionPatterns -/

theorem le_of_mem_forLoopFuel (step bound : Int) (hs : 1 ≤ step) (fuel : Nat) :
    ∀ v w : Int, w ∈ forLoopFuel step bound fuel v → v ≤ w := by
  induction fuel with
  | zero => intro v w hw; simp [forLoopFuel] at hw
  | succ fuel ih =>
    intro v w hw
    rw [forLoopFuel] at hw
    split_ifs at hw
    · rcases List.mem_cons.1 hw with rfl | hw
      · exact le_refl _
      · have := ih _ _ hw
        omega
    · simp at hw

theorem forLoopFuel_pairwise (step bound : Int) (hs : 1 ≤ step) (fuel : Nat) :
    ∀ v : Int, (forLoopFuel step bound fuel v).Pairwise (· < ·) := by
  induction fuel with
  | zero => intro v; simp [forLoopFuel]
  | succ fuel ih =>
    intro v
    rw [forLoopFuel]
    split_ifs
    · refine List.pairwise_cons.2 ⟨fun w hw => ?_, ih _⟩
      have := le_of_mem_forLoopFuel step bound hs fuel _ _ hw
      omega
    · exact List.Pairwise.nil

theorem forLoop_pairwise (start bound step : Int) (hs : 1 ≤ step) :
    (forLoop start bound step).Pairwise (· < ·) :=
  forLoopFuel_pairwise step bound hs _ start

theorem forLoopFuel_eq_map (step bound : Int) (n : Nat) :
    ∀ (fuel : Nat) (v : Int), n ≤ fuel → (∀ k : Nat, k < n → v + k * step < bound) →
      bound ≤ v + n * step →
      forLoopFuel step bound fuel v = (List.range n).map fun k : Nat => v + (k : Int) * step := by
  induction n with
  | zero =>
    intro fuel v _ _ hb
    cases fuel with
    | zero => rfl
    | succ fuel =>
      rw [forLoopFuel, if_neg (by simpa using hb)]
      rfl
  | succ n ih =>
    intro fuel v hf hlt hb
    obtain ⟨f, rfl⟩ : ∃ f, fuel = f + 1 := ⟨fuel - 1, by omega⟩
    have h0 : v < bound := by simpa using hlt 0 (by omega)
    rw [forLoopFuel, if_pos h0, ih f (v + step) (by omega) ?_ ?_, List.range_succ_eq_map,
      List.map_cons, List.map_map]
    · congr 1
      · simp
      · apply List.map_congr_left
        intro k _
        simp only [Function.comp, Nat.succ_eq_add_one]
        push_cast
        ring
    · intro k hk
      have := hlt (k + 1) (by omega)
      push_cast at this
      linarith
    · push_cast at hb
      linarith

theorem forLoop_eq_map (start bound step : Int) (hs : 1 ≤ step) (n : Nat)
    (hlt : ∀ k : Nat, k < n → start + k * step < bound) (hb : bound ≤ start + n * step) :
    forLoop start bound step = (List.range n).map fun k : Nat => start + (k : Int) * step := by
  apply forLoopFuel_eq_map step bound n _ start _ hlt hb
  cases n with
  | zero => omega
  | succ m =>
    have h1 := hlt m (by omega)
    have h2 : (m : Int) ≤ m * step := by
      have : (0 : Int) ≤ m := by omega
      nlinarith
    omega

theorem forLoop_length_200 (start : Int) : (forLoop start (start + 200) 10).length = 20 := by
  rw [forLoop_eq_map start (start + 200) 10 (by decide) 20 (fun k hk => by omega) (by omega)]
  simp

theorem length_flatMap_le {α β : Type} (f : α → List β) (m : Nat) (ys : List α)
    (h : ∀ y ∈ ys, (f y).length ≤ m) : (ys.flatMap f).length ≤ ys.length * m := by
  induction ys with
  | nil => simp
  | cons y ys ih =>
    have h1 := h y (by simp)
    have h2 := ih fun z hz => h z (by simp [hz])
    simp only [List.flatMap_cons, List.length_append, List.length_cons]
    rw [Nat.add_mul]
    omega

/-- C17: findPositionPatterns returns exactly the grid points
`(startX + 10 * i, startY + 10 * j)` with `10 * i < size` and `10 * j < size` for which
isPositionPattern holds; they come sorted by y and, within equal y, by x, so each point
occurs once; with size 200 there are at most 400 of them. -/
theorem findPositionPatterns_spec (img : ImageData) (startX startY size : Int) :
    (∀ p : Point, p ∈ findPositionPatterns img startX startY size ↔
      ∃ i j : Nat, p = ⟨startX + 10 * i, startY + 10 * j⟩ ∧ 10 * (i : Int) < size ∧
        10 * (j : Int) < size ∧ isPositionPattern img p.x p.y = true) ∧
      (findPositionPatterns img startX startY size).Pairwise
        (fun p q => p.y < q.y ∨ (p.y = q.y ∧ p.x < q.x)) ∧
      (findPositionPatterns img startX startY size).Nodup ∧
      (findPositionPatterns img startX startY 200).length ≤ 400 := by
  have hsorted : (findPositionPatterns img startX startY size).Pairwise
      (fun p q => p.y < q.y ∨ (p.y = q.y ∧ p.x < q.x)) := by
    rw [findPositionPatterns_eq, List.pairwise_flatMap]
    constructor
    · intro y _
      refine List.Pairwise.map _ ?_
        ((forLoop_pairwise startX (startX + size) 10 (by decide)).filter _)
      intro a b hab
      exact Or.inr ⟨rfl, hab⟩
    · refine (forLoop_pairwise startY (startY + size) 10 (by decide)).imp ?_
      intro y1 y2 hy p hp q hq
      simp only [List.mem_map, List.mem_filter] at hp hq
      obtain ⟨_, _, rfl⟩ := hp
      obtain ⟨_, _, rfl⟩ := hq
      exact Or.inl hy
  refine ⟨?_, hsorted, ?_, ?_⟩
  · intro p
    rw [findPositionPatterns_eq]
    simp only [List.mem_flatMap, List.mem_map, List.mem_filter, mem_forLoop _ _ _ (by decide : (1 : Int) ≤ 10)]
    constructor
    · rintro ⟨y, ⟨j, rfl, hj⟩, x, ⟨⟨i, rfl, hi⟩, hp⟩, rfl⟩
      exact ⟨i, j, by simp only [Point.mk.injEq]; constructor <;> ring, by omega, by omega, hp⟩
    · rintro ⟨i, j, rfl, hi, hj, hp⟩
      exact ⟨startY + 10 * j, ⟨j, by ring, by omega⟩, startX + 10 * i,
        ⟨⟨i, by ring, by omega⟩, hp⟩, rfl⟩
  · refine hsorted.imp ?_
    rintro p q (h | ⟨_, h⟩) rfl <;> omega
  · rw [findPositionPatterns_eq]
    refine le_trans (length_flatMap_le _ 20 _ ?_) ?_
    · intro y _
      rw [List.length_map]
      exact le_trans (List.length_filter_le _ _) (le_of_eq (forLoop_length_200 startX))
    · rw [forLoop_length_200]

theorem findPositionPatterns_spec_witness :
    (⟨-5, 0⟩ : Point) ∈ findPositionPatterns (uniformImage 11 1 0) (-95) (-100) 200 :=
  ((findPositionPatterns_spec (uniformImage 11 1 0) (-95) (-100) 200).1 ⟨-5, 0⟩).2
    ⟨9, 10, by decide, by decide, by decide, by decide⟩

/-! ### findBarcodePatterns -/

theorem onesBefore_zero (d : List Nat) : onesBefore d 0 = 0 := by
  simp [onesBefore]

theorem onesBefore_succ (d : List Nat) (i : Nat) (hi : i < d.length) :
    onesBefore d (i + 1) = if d[i]? = some 1 then onesBefore d i + 1 else 0 := by
  have hg : d[i]? = some d[i] := List.getElem?_eq_getElem hi
  simp only [onesBefore, List.take_succ, hg, Option.toList_some, List.reverse_append,
    List.reverse_cons, List.reverse_nil, List.nil_append, List.singleton_append,
    List.takeWhile_cons, Option.some.injEq]
  by_cases h1 : d[i] = 1
  · simp [h1]
  · simp [h1]

theorem onesBefore_of_not_one (d : List Nat) (i : Nat) (hi : i ≤ d.length)
    (h : ¬ (1 ≤ i ∧ d[i - 1]? = some 1)) : onesBefore d i = 0 := by
  cases i with
  | zero => exact onesBefore_zero d
  | succ j =>
    rw [onesBefore_succ d j (by omega), if_neg]
    intro hj
    exact h ⟨by omega, by simpa using hj⟩

/-- The 1s counted by `onesBefore` form a maximal run that ends right before `e`. -/
theorem onesBefore_run (d : List Nat) (e : Nat) (he : e ≤ d.length) :
    onesBefore d e ≤ e ∧ (∀ i, e - onesBefore d e ≤ i → i < e → d[i]? = some 1) ∧
      (e - onesBefore d e = 0 ∨ d[e - onesBefore d e - 1]? ≠ some 1) := by
  induction e with
  | zero =>
    rw [onesBefore_zero]
    exact ⟨le_refl _, fun i _ hi => absurd hi (by omega), Or.inl rfl⟩
  | succ e ih =>
    obtain ⟨h1, h2, h3⟩ := ih (by omega)
    rw [onesBefore_succ d e (by omega)]
    by_cases hd : d[e]? = some 1
    · rw [if_pos hd]
      have hs : e + 1 - (onesBefore d e + 1) = e - onesBefore d e := by omega
      rw [hs]
      refine ⟨by omega, fun i hi1 hi2 => ?_, h3⟩
      by_cases hie : i = e
      · rw [hie]
        exact hd
      · exact h2 i hi1 (by omega)
    · rw [if_neg hd]
      exact ⟨by omega, fun i hi1 hi2 => absurd hi1 (by omega), Or.inr (by simpa using hd)⟩

theorem scanTo_succ (d : List Nat) (i : Nat) :
    scanTo d (i + 1) = findBarcodeStep d (scanTo d i) i := by
  simp [scanTo, List.range_succ, List.foldl_append]

theorem filter_range_succ (q : Nat → Bool) (i : Nat) :
    (List.range (i + 1)).filter q =
      (List.range i).filter q ++ if q i = true then [i] else [] := by
  rw [List.range_succ, List.filter_append]
  by_cases h : q i = true
  · simp [h]
  · simp [h]

/-- The loop invariant of `findBarcodePatterns` on a sequence of 0s and 1s. -/
theorem scanTo_invariant (d : List Nat) (hbin : ∀ b ∈ d, b = 0 ∨ b = 1) (i : Nat)
    (hi : i ≤ d.length) :
    (scanTo d i).patterns =
        ((List.range i).filter (isFall d)).map (fun e => (e - onesBefore d e, e)) ∧
      ((scanTo d i).inBar = true ↔ 1 ≤ i ∧ d[i - 1]? = some 1) ∧
      ((scanTo d i).inBar = true → (scanTo d i).currentPattern = i - onesBefore d i) := by
  induction i with
  | zero => simp [scanTo]
  | succ i ih =>
    obtain ⟨hp, hb, hc⟩ := ih (by omega)
    have hg : d[i]? = some d[i] := List.getElem?_eq_getElem (by omega)
    have hob := onesBefore_succ d i (by omega)
    have hle := (onesBefore_run d i (by omega)).1
    rw [scanTo_succ, filter_range_succ]
    rcases hbin d[i] (List.getElem_mem _) with h0 | h1
    · have hd0 : d[i]? = some 0 := by rw [hg, h0]
      have hn1 : ¬ d[i]? = some 1 := by rw [hd0]; decide
      by_cases hin : (scanTo d i).inBar = true
      · have hfall : isFall d i = true := by
          simp only [isFall, decide_eq_true_eq]
          exact ⟨(hb.1 hin).1, (hb.1 hin).2, hd0⟩
        have hstep : findBarcodeStep d (scanTo d i) i =
            { scanTo d i with
              inBar := false
              patterns := (scanTo d i).patterns ++ [((scanTo d i).currentPattern, i)] } := by
          simp only [findBarcodeStep, hd0, hin]
          simp
        rw [hstep, hfall, if_pos rfl]
        refine ⟨?_, ?_, ?_⟩
        · simp only [List.map_append, List.map_cons, List.map_nil, hp, hc hin]
        · simp only [Nat.add_sub_cancel, Bool.false_eq_true, false_iff, not_and]
          exact fun _ => hn1
        · intro h
          exact absurd h (by simp)
      · have hin2 : (scanTo d i).inBar = false := by simpa using hin
        have hfall : ¬ isFall d i = true := by
          simp only [isFall, decide_eq_true_eq]
          exact fun h => hin (hb.2 ⟨h.1, h.2.1⟩)
        have hstep : findBarcodeStep d (scanTo d i) i = scanTo d i := by
          simp only [findBarcodeStep, hd0, hin2]
          simp
        rw [hstep, if_neg hfall, List.append_nil]
        refine ⟨hp, ?_, fun h => absurd h hin⟩
        simp only [Nat.add_sub_cancel, hin2, Bool.false_eq_true, false_iff, not_and]
        exact fun _ => hn1
    · have hd1 : d[i]? = some 1 := by rw [hg, h1]
      have hfall : ¬ isFall d i = true := by
        simp only [isFall, decide_eq_true_eq, hd1]
        simp
      rw [if_neg hfall, List.append_nil]
      rw [if_pos hd1] at hob
      by_cases hin : (scanTo d i).inBar = true
      · have hstep : findBarcodeStep d (scanTo d i) i = scanTo d i := by
          simp only [findBarcodeStep, hd1, hin]
          simp
        rw [hstep]
        refine ⟨hp, ?_, fun _ => ?_⟩
        · simp only [Nat.add_sub_cancel, hin, true_iff]
          exact ⟨by omega, hd1⟩
        · rw [hc hin, hob]
          omega
      · have hin2 : (scanTo d i).inBar = false := by simpa using hin
        have hstep : findBarcodeStep d (scanTo d i) i =
            { scanTo d i with inBar := true, currentPattern := i } := by
          simp only [findBarcodeStep, hd1, hin2]
          simp
        have hz : onesBefore d i = 0 :=
          onesBefore_of_not_one d i (by omega) fun h => hin (hb.2 h)
        rw [hstep]
        refine ⟨hp, ?_, fun _ => ?_⟩
        · simp only [Nat.add_sub_cancel, true_iff]
          exact ⟨by omega, hd1⟩
        · simp only [hob, hz]
          omega

theorem findBarcodePatterns_eq (d : List Nat) (hbin : ∀ b ∈ d, b = 0 ∨ b = 1) :
    findBarcodePatterns d =
      ((List.range d.length).filter (isFall d)).map (fun e => (e - onesBefore d e, e)) :=
  (scanTo_invariant d hbin d.length (le_refl _)).1

theorem isFall_iff (d : List Nat) (e : Nat) :
    isFall d e = true ↔ 1 ≤ e ∧ d[e - 1]? = some 1 ∧ d[e]? = some 0 := by
  simp [isFall]

theorem closedRun_of_fall (d : List Nat) (hbin : ∀ b ∈ d, b = 0 ∨ b = 1) (e : Nat)
    (hf : isFall d e = true) : IsClosedRun d (e - onesBefore d e) e := by
  obtain ⟨h1, h2, h3⟩ := (isFall_iff d e).1 hf
  have hlen : e < d.length := by
    by_contra hn
    rw [List.getElem?_eq_none (by omega)] at h3
    exact Option.noConfusion h3
  obtain ⟨r1, r2, r3⟩ := onesBefore_run d e (by omega)
  obtain ⟨j, rfl⟩ : ∃ j, e = j + 1 := ⟨e - 1, by omega⟩
  have hob := onesBefore_succ d j (by omega)
  rw [if_pos (by simpa using h2)] at hob
  refine ⟨by omega, r2, h3, ?_⟩
  rcases r3 with r3 | r3
  · exact Or.inl r3
  · by_cases hs : j + 1 - onesBefore d (j + 1) = 0
    · exact Or.inl hs
    · right
      have hlt : j + 1 - onesBefore d (j + 1) - 1 < d.length := by omega
      have hg := List.getElem?_eq_getElem hlt
      rw [hg] at r3 ⊢
      rcases hbin _ (List.getElem_mem hlt) with h | h
      · rw [h]
      · rw [h] at r3
        exact absurd rfl r3

theorem fall_of_closedRun (d : List Nat) (s e : Nat) (h : IsClosedRun d s e) :
    isFall d e = true ∧ s = e - onesBefore d e := by
  obtain ⟨h1, h2, h3, h4⟩ := h
  have hlen : e < d.length := by
    by_contra hn
    rw [List.getElem?_eq_none (by omega)] at h3
    exact Option.noConfusion h3
  obtain ⟨r1, r2, r3⟩ := onesBefore_run d e (by omega)
  refine ⟨(isFall_iff d e).2 ⟨by omega, h2 (e - 1) (by omega) (by omega), h3⟩, ?_⟩
  by_contra hne
  rcases Nat.lt_or_gt_of_ne hne with hlt | hgt
  · rcases r3 with r3 | r3
    · omega
    · exact r3 (h2 _ (by omega) (by omega))
  · rcases h4 with h4 | h4
    · omega
    · have := r2 (s - 1) (by omega) (by omega)
      rw [h4] at this
      exact absurd this (by decide)

/-- C18, as stated, fails: the sequence 0, 1, 1 has one maximal run of 1s and
findBarcodePatterns returns no candidate for it, because no 0 follows the run. -/
theorem findBarcodePatterns_trailing_run :
    maximalRuns [0, 1, 1] = 1 ∧ findBarcodePatterns [0, 1, 1] = [] := by
  decide

/-- C18, amended: on a sequence of 0s and 1s, findBarcodePatterns returns one pair
`[startIndex, endIndex]` for each maximal run of 1s that a 0 follows inside the sequence,
with startIndex the index of the first 1 of the run and endIndex the index of that 0, ordered
from left to right; their number is the number of those runs (of the indices where a 0
follows a 1). -/
theorem findBarcodePatterns_spec (d : List Nat) (hbin : ∀ b ∈ d, b = 0 ∨ b = 1) :
    (∀ p : Nat × Nat, p ∈ findBarcodePatterns d ↔ IsClosedRun d p.1 p.2) ∧
      (findBarcodePatterns d).Pairwise (fun p q => p.2 < q.1) ∧
      (findBarcodePatterns d).length = ((List.range d.length).filter (isFall d)).length := by
  have heq := findBarcodePatterns_eq d hbin
  refine ⟨?_, ?_, ?_⟩
  · intro p
    rw [heq]
    simp only [List.mem_map, List.mem_filter, List.mem_range]
    constructor
    · rintro ⟨e, ⟨_, hf⟩, rfl⟩
      exact closedRun_of_fall d hbin e hf
    · intro h
      obtain ⟨hf, hs⟩ := fall_of_closedRun d p.1 p.2 h
      have hlen : p.2 < d.length := by
        by_contra hn
        have h3 := h.2.2.1
        rw [List.getElem?_eq_none (by omega)] at h3
        exact Option.noConfusion h3
      exact ⟨p.2, ⟨hlen, hf⟩, by rw [← hs]⟩
  · rw [heq, List.pairwise_map]
    refine List.Pairwise.imp_of_mem ?_ ((List.pairwise_lt_range _).filter _)
    intro a b ha hb hab
    simp only [List.mem_filter, List.mem_range] at ha hb
    obtain ⟨_, hrun, _, _⟩ := closedRun_of_fall d hbin b hb.2
    have ha0 := ((isFall_iff d a).1 ha.2).2.2
    by_contra hn
    have := hrun a (by omega) hab
    rw [ha0] at this
    exact absurd this (by decide)
  · rw [heq, List.length_map]

theorem findBarcodePatterns_spec_witness :
    findBarcodePatterns [0, 1, 1, 0, 1, 0, 1] = [(1, 3), (4, 5)] ∧
      IsClosedRun [0, 1, 1, 0, 1, 0, 1] 1 3 :=
  ⟨by decide,
    ((findBarcodePatterns_spec [0, 1, 1, 0, 1, 0, 1] (by decide)).1 (1, 3)).1 (by decide)⟩

/-! ### detectBarcode -/

theorem forLoop_two (w : Nat) :
    forLoop 0 w 2 = (List.range ((w + 1) / 2)).map fun k : Nat => (0 : Int) + (k : Int) * 2 :=
  forLoop_eq_map 0 w 2 (by decide) ((w + 1) / 2) (fun k hk => by omega) (by omega)

theorem sampleScanline_eq (img : ImageData) :
    sampleScanline img =
      (List.range ((img.width + 1) / 2)).map fun k =>
        if pixelDark img (2 * k) (img.height / 2) = true then 1 else 0 := by
  simp only [sampleScanline, forLoop_two, List.map_map]
  apply List.map_congr_left
  intro k _
  have hk : ((0 : Int) + (k : Int) * 2).toNat = 2 * k := by omega
  simp only [Function.comp, hk, isDarkAt_eq_pixelDark]

theorem detectBarcode_head (img : ImageData) :
    detectBarcode img =
      (findBarcodePatterns (sampleScanline img)).head?.map fun first =>
        ⟨"barcode", decodeBarcodePattern ((first.1 : Int), (first.2 : Int))⟩ := by
  rw [detectBarcode_eq]
  cases findBarcodePatterns (sampleScanline img) <;> rfl

/-- C19: detectBarcode samples row `floor(height / 2)` at the columns `0, 2, 4, ...` below
the width, one bit per sampled pixel (1 when the mean of R, G, B is below 128, else 0), which
makes `ceil(width / 2)` bits; the result is the detection of type `barcode` with the code
decoded from the first candidate of that sequence, and no detection without a candidate.
Two frames of the same size that agree on the R, G, B values of the sampled pixels give the
same result. -/
theorem detectBarcode_spec :
    (∀ img : ImageData,
      sampleScanline img =
          (List.range ((img.width + 1) / 2)).map (fun k =>
            if pixelDark img (2 * k) (img.height / 2) = true then 1 else 0) ∧
        (sampleScanline img).length = (img.width + 1) / 2 ∧
        (∀ b ∈ sampleScanline img, b = 0 ∨ b = 1)) ∧
    (∀ img : ImageData,
      detectBarcode img =
        (findBarcodePatterns (sampleScanline img)).head?.map fun first =>
          ⟨"barcode", decodeBarcodePattern ((first.1 : Int), (first.2 : Int))⟩) ∧
    (∀ img img2 : ImageData, img.width = img2.width → img.height = img2.height →
      (∀ k ch : Nat, 2 * k < img.width → ch < 3 →
        img.data[(img.height / 2 * img.width + 2 * k) * 4 + ch]? =
          img2.data[(img.height / 2 * img.width + 2 * k) * 4 + ch]?) →
      detectBarcode img = detectBarcode img2) := by
  refine ⟨fun img => ⟨sampleScanline_eq img, ?_, ?_⟩, detectBarcode_head, ?_⟩
  · rw [sampleScanline_eq]
    simp
  · intro b hb
    rw [sampleScanline_eq] at hb
    obtain ⟨k, _, rfl⟩ := List.mem_map.1 hb
    split_ifs
    · exact Or.inr rfl
    · exact Or.inl rfl
  · intro img img2 hw hh hagree
    have hs : sampleScanline img = sampleScanline img2 := by
      rw [sampleScanline_eq, sampleScanline_eq, ← hw, ← hh]
      apply List.map_congr_left
      intro k hk
      have hk2 : 2 * k < img.width := by
        have := List.mem_range.1 hk
        omega
      have hp : pixelDark img (2 * k) (img.height / 2) =
          pixelDark img2 (2 * k) (img.height / 2) := by
        have h0 := hagree k 0 hk2 (by omega)
        have h1 := hagree k 1 hk2 (by omega)
        have h2 := hagree k 2 hk2 (by omega)
        rw [Nat.add_zero] at h0
        unfold pixelDark
        rw [← hw, h0, h1, h2]
      rw [hp]
    rw [detectBarcode_head, detectBarcode_head, hs]

theorem detectBarcode_spec_witness :
    detectBarcode ⟨4, 1, [0, 0, 0, 255, 9, 9, 9, 255, 255, 255, 255, 255, 0, 0, 0, 255]⟩ =
      detectBarcode ⟨4, 1, [0, 0, 0, 255, 200, 200, 200, 255, 255, 255, 255, 255, 7, 7, 7, 255]⟩ :=
  detectBarcode_spec.2.2 _ _ rfl rfl (by
    intro k ch hk hch
    have hk2 : k = 0 ∨ k = 1 := by
      have : 2 * k < 4 := hk
      omega
    have hch2 : ch = 0 ∨ ch = 1 ∨ ch = 2 := by omega
    rcases hk2 with rfl | rfl <;> rcases hch2 with rfl | rfl | rfl <;> rfl)

/-! ### After stop -/

/-- After stop, a pause timer that is still pending switches scanning on again; with a video
element that has no source (`readyState` 0) no frame is processed and none is requested. -/
theorem pauseElapsed_after_stop (c : Controller) (inp : FrameInput) (due : Int)
    (rest : List Int) (ht : c.scan.pauseTimers = due :: rest) (hr : inp.readyState = 0) :
    step (stop c) (.pauseElapsed inp) =
      { stop c with scan := { c.scan with scanning := true, pauseTimers := rest } } := by
  have ht2 : (stop c).scan.pauseTimers = due :: rest := by rw [stop_scan]; exact ht
  rw [step_pauseElapsed (stop c) inp due rest ht2, resumeScanning]
  unfold scanFrame
  rw [if_pos (Or.inr (Or.inr hr)), stop_scan]

/-- C21, evaluated on the code: the controller accepted a code at time 1700000000000, so a
pause timer due at 1700000001000 is pending.  stop sets the scanning flag to false and
cancels the requested frame, but when the pause timer runs afterwards the flag is true
again, although no start was called; the video element has no source, so no frame is
processed and none is requested. -/
theorem stop_then_pause_timer :
    (stop acceptedExample).scan.scanning = false ∧
      (stop acceptedExample).pendingFrames = [] ∧
      (run acceptedExample [.stop, .pauseElapsed (idleInput 1700000001000 3)]).scan.scanning =
        true ∧
      (run acceptedExample [.stop, .pauseElapsed (idleInput 1700000001000 3)]).stream = none ∧
      (run acceptedExample
        [.stop, .pauseElapsed (idleInput 1700000001000 3)]).pendingFrames = [] ∧
      (run acceptedExample
        [.stop, .pauseElapsed (idleInput 1700000001000 3)]).scan.onScanCalls =
        acceptedExample.scan.onScanCalls := by
  have h : run acceptedExample [.stop, .pauseElapsed (idleInput 1700000001000 3)] =
      { stop acceptedExample with
        scan := { acceptedExample.scan with scanning := true, pauseTimers := [] } } :=
    pauseElapsed_after_stop acceptedExample (idleInput 1700000001000 3) 1700000001000 [] rfl rfl
  rw [h]
  decide

/-! ### The shape of the candidate bars -/

theorem lt_length_of_getElem? {α : Type} (d : List α) (e : Nat) (a : α)
    (h : d[e]? = some a) : e < d.length := by
  by_contra hn
  rw [List.getElem?_eq_none (by omega)] at h
  exact Option.noConfusion h

theorem findBarcodePatterns_pairwise (d : List Nat) (hbin : ∀ b ∈ d, b = 0 ∨ b = 1) :
    (findBarcodePatterns d).Pairwise (fun p q => p.2 < q.1) := by
  rw [findBarcodePatterns_eq d hbin, List.pairwise_map]
  refine List.Pairwise.imp_of_mem ?_ ((List.pairwise_lt_range _).filter _)
  intro a b ha hb hab
  simp only [List.mem_filter, List.mem_range] at ha hb
  obtain ⟨_, hrun, _, _⟩ := closedRun_of_fall d hbin b hb.2
  have ha0 := ((isFall_iff d a).1 ha.2).2.2
  by_contra hn
  have := hrun a (by omega) hab
  rw [ha0] at this
  exact absurd this (by decide)

theorem mem_findBarcodePatterns_iff (d : List Nat) (hbin : ∀ b ∈ d, b = 0 ∨ b = 1)
    (p : Nat × Nat) : p ∈ findBarcodePatterns d ↔ IsClosedRun d p.1 p.2 := by
  rw [findBarcodePatterns_eq d hbin]
  simp only [List.mem_map, List.mem_filter, List.mem_range]
  constructor
  · rintro ⟨e, ⟨_, hf⟩, rfl⟩
    exact closedRun_of_fall d hbin e hf
  · intro h
    obtain ⟨hf, hs⟩ := fall_of_closedRun d p.1 p.2 h
    exact ⟨p.2, ⟨lt_length_of_getElem? d p.2 0 h.2.2.1, hf⟩, by rw [← hs]⟩

/-- C22: on a sequence of 0s and 1s every returned pair `[s, e]` has `s < e < length`, 1s
at the indices `s` to `e - 1`, a 0 at index `e`, and `s = 0` or a 0 at index `s - 1`; each
pair ends before the next one starts; and a maximal run of 1s has its pair returned exactly
when a 0 follows it inside the sequence, the pair being then the first index of the run and
the index of that 0. -/
theorem findBarcodePatterns_shape (d : List Nat) (hbin : ∀ b ∈ d, b = 0 ∨ b = 1) :
    (∀ p ∈ findBarcodePatterns d,
      p.1 < p.2 ∧ p.2 < d.length ∧ (∀ i, p.1 ≤ i → i < p.2 → d[i]? = some 1) ∧
        d[p.2]? = some 0 ∧ (p.1 = 0 ∨ d[p.1 - 1]? = some 0)) ∧
      (findBarcodePatterns d).Chain' (fun p q => p.2 < q.1) ∧
      (findBarcodePatterns d).Pairwise (fun p q => p.2 < q.1) ∧
      (∀ s e : Nat, IsMaximalRun d s e →
        ((∃ p ∈ findBarcodePatterns d, p.1 = s) ↔ e < d.length) ∧
        ((s, e) ∈ findBarcodePatterns d ↔ e < d.length) ∧
        (∀ p ∈ findBarcodePatterns d, p.1 = s → p.2 = e)) := by
  have hpw := findBarcodePatterns_pairwise d hbin
  have hend : ∀ s e : Nat, IsMaximalRun d s e → ∀ p ∈ findBarcodePatterns d,
      p.1 = s → p.2 = e := by
    rintro s e ⟨h1, h2, h3, h4, h5⟩ p hp rfl
    obtain ⟨c1, c2, c3, c4⟩ := (mem_findBarcodePatterns_iff d hbin p).1 hp
    have hlen := lt_length_of_getElem? d p.2 0 c3
    by_contra hne
    rcases Nat.lt_or_gt_of_ne hne with hlt | hgt
    · have := h3 p.2 (by omega) hlt
      rw [c3] at this
      exact absurd this (by decide)
    · rcases h5 with h5 | h5
      · omega
      · have := c2 e (by omega) hgt
        rw [h5] at this
        exact absurd this (by decide)
  have hin : ∀ s e : Nat, IsMaximalRun d s e → e < d.length →
      (s, e) ∈ findBarcodePatterns d := by
    rintro s e ⟨h1, h2, h3, h4, h5⟩ hlt
    rcases h5 with h5 | h5
    · omega
    · exact (mem_findBarcodePatterns_iff d hbin (s, e)).2 ⟨h1, h3, h5, h4⟩
  refine ⟨?_, hpw.chain', hpw, ?_⟩
  · intro p hp
    obtain ⟨c1, c2, c3, c4⟩ := (mem_findBarcodePatterns_iff d hbin p).1 hp
    exact ⟨c1, lt_length_of_getElem? d p.2 0 c3, c2, c3, c4⟩
  · intro s e hrun
    refine ⟨⟨?_, fun hlt => ⟨(s, e), hin s e hrun hlt, rfl⟩⟩,
      ⟨?_, hin s e hrun⟩, hend s e hrun⟩
    · rintro ⟨p, hp, hps⟩
      have he := hend s e hrun p hp hps
      have c3 := ((mem_findBarcodePatterns_iff d hbin p).1 hp).2.2.1
      rw [← he]
      exact lt_length_of_getElem? d p.2 0 c3
    · intro hp
      exact lt_length_of_getElem? d e 0 ((mem_findBarcodePatterns_iff d hbin (s, e)).1 hp).2.2.1

theorem findBarcodePatterns_shape_witness :
    ((1, 3) ∈ findBarcodePatterns [0, 1, 1, 0, 1, 1] ↔ 3 < [0, 1, 1, 0, 1, 1].length) ∧
      ((4, 6) ∈ findBarcodePatterns [0, 1, 1, 0, 1, 1] ↔ 6 < [0, 1, 1, 0, 1, 1].length) :=
  ⟨((findBarcodePatterns_shape [0, 1, 1, 0, 1, 1] (by decide)).2.2.2 1 3
      (by unfold IsMaximalRun; decide)).2.1,
    ((findBarcodePatterns_shape [0, 1, 1, 0, 1, 1] (by decide)).2.2.2 4 6
      (by unfold IsMaximalRun; decide)).2.1⟩

/-! ### Frames without a dark pixel -/

theorem pixelDark_of_light (img : ImageData) (hwf : img.data.length = img.width * img.height * 4)
    (hlight : ∀ px < img.width, ∀ py < img.height, 384 ≤ rgbSum img px py) (px py : Nat)
    (hpx : px < img.width) (hpy : py < img.height) : pixelDark img px py = false := by
  have hlt : (py * img.width + px) * 4 + 3 < img.data.length := by
    rw [hwf]
    have h1 : py * img.width + px < img.width * img.height := by
      calc py * img.width + px < py * img.width + img.width := by omega
        _ = (py + 1) * img.width := by ring
        _ ≤ img.height * img.width := Nat.mul_le_mul_right _ hpy
        _ = img.width * img.height := Nat.mul_comm _ _
    omega
  have g0 := List.getElem?_eq_getElem
    (show (py * img.width + px) * 4 < img.data.length by omega)
  have g1 := List.getElem?_eq_getElem
    (show (py * img.width + px) * 4 + 1 < img.data.length by omega)
  have g2 := List.getElem?_eq_getElem
    (show (py * img.width + px) * 4 + 2 < img.data.length by omega)
  have hsum := hlight px hpx py hpy
  simp only [rgbSum, List.getD_eq_getElem?_getD, g0, g1, g2, Option.getD_some] at hsum
  rw [← isDarkAt_eq_pixelDark]
  simp only [isDarkAt, g0, g1, g2, decide_eq_false_iff_not, not_lt]
  omega

theorem pixelDark_of_no_data (img : ImageData) (hd : img.data = []) (px py : Nat) :
    pixelDark img px py = false := by
  simp [pixelDark, hd]

theorem isPositionPattern_of_light (img : ImageData)
    (hwf : img.data.length = img.width * img.height * 4)
    (hlight : ∀ px < img.width, ∀ py < img.height, 384 ≤ rgbSum img px py) (x y : Int) :
    isPositionPattern img x y = false := by
  have hd : darkCount img x y = 0 := by
    rw [darkCount, List.countP_eq_zero]
    intro p hp
    simp only [windowPixels, List.mem_filter, decide_eq_true_eq] at hp
    obtain ⟨_, h1, h2, h3, h4⟩ := hp
    rw [pixelDark_of_light img hwf hlight p.1.toNat p.2.toNat (by omega) (by omega)]
    exact Bool.false_ne_true
  simp [isPositionPattern, countWindow_eq, hd]

theorem findPositionPatterns_of_light (img : ImageData)
    (hwf : img.data.length = img.width * img.height * 4)
    (hlight : ∀ px < img.width, ∀ py < img.height, 384 ≤ rgbSum img px py)
    (startX startY size : Int) : findPositionPatterns img startX startY size = [] := by
  rw [findPositionPatterns_eq]
  simp [isPositionPattern_of_light img hwf hlight]

theorem sampleScanline_of_light (img : ImageData)
    (hwf : img.data.length = img.width * img.height * 4)
    (hlight : ∀ px < img.width, ∀ py < img.height, 384 ≤ rgbSum img px py) :
    ∀ b ∈ sampleScanline img, b = 0 := by
  intro b hb
  rw [sampleScanline_eq] at hb
  obtain ⟨k, hk, rfl⟩ := List.mem_map.1 hb
  have hk2 : 2 * k < img.width := by
    have := List.mem_range.1 hk
    omega
  have hp : pixelDark img (2 * k) (img.height / 2) = false := by
    by_cases hh : img.height = 0
    · apply pixelDark_of_no_data
      apply List.eq_nil_of_length_eq_zero
      rw [hwf, hh]
      rfl
    · exact pixelDark_of_light img hwf hlight _ _ hk2 (by omega)
  rw [hp]
  rfl

theorem findBarcodePatterns_of_zeros (d : List Nat) (hz : ∀ b ∈ d, b = 0) :
    findBarcodePatterns d = [] := by
  rw [findBarcodePatterns_eq d fun b hb => Or.inl (hz b hb)]
  have hf : (List.range d.length).filter (isFall d) = [] := by
    rw [List.filter_eq_nil_iff]
    intro e _ he
    have h1 := ((isFall_iff d e).1 he).2.1
    have := hz 1 (List.getElem?_mem h1)
    omega
  rw [hf]
  rfl

/-- C23: in a frame that holds its `width * height * 4` channel values and in which every
pixel has R + G + B ≥ 384, findPositionPatterns returns no candidate for any region, the
sampled scanline holds no 1, detectQRCode and detectBarcode yield no detection, and
processFrame returns the state unchanged: onScan is not called, no pause is started and
lastScanned is kept. -/
theorem no_dark_pixel_no_detection (img : ImageData)
    (hwf : img.data.length = img.width * img.height * 4)
    (hlight : ∀ px < img.width, ∀ py < img.height, 384 ≤ rgbSum img px py) :
    (∀ startX startY size : Int, findPositionPatterns img startX startY size = []) ∧
      (∀ b ∈ sampleScanline img, b ≠ 1) ∧
      (∀ t : Int, detectQRCode img t = none) ∧
      detectBarcode img = none ∧
      (∀ (st : Scanner) (t now : Int),
        processFrame st img t now = st ∧
          (processFrame st img t now).onScanCalls = st.onScanCalls ∧
          (processFrame st img t now).pauseTimers = st.pauseTimers ∧
          (processFrame st img t now).scanning = st.scanning ∧
          (processFrame st img t now).lastScanned = st.lastScanned) := by
  have hq : ∀ t : Int, detectQRCode img t = none := by
    intro t
    rw [detectQRCode_eq, centerCandidates, findPositionPatterns_of_light img hwf hlight]
    rfl
  have hb : detectBarcode img = none := by
    rw [detectBarcode_eq, findBarcodePatterns_of_zeros _ (sampleScanline_of_light img hwf hlight)]
  refine ⟨findPositionPatterns_of_light img hwf hlight, ?_, hq, hb, ?_⟩
  · intro b hb1 h1
    have := sampleScanline_of_light img hwf hlight b hb1
    omega
  · intro st t now
    rw [processFrame_of_no_detection st img t now (hq t) hb]
    exact ⟨rfl, rfl, rfl, rfl, rfl⟩

theorem no_dark_pixel_no_detection_witness :
    detectBarcode ⟨2, 2, [255, 255, 255, 255, 200, 100, 84, 255, 128, 128, 128, 255,
        0, 255, 129, 255]⟩ = none ∧
      processFrame ⟨true, true, none, [], []⟩
        ⟨2, 2, [255, 255, 255, 255, 200, 100, 84, 255, 128, 128, 128, 255,
          0, 255, 129, 255]⟩ 1700000000000 1700000000000 = ⟨true, true, none, [], []⟩ :=
  ⟨(no_dark_pixel_no_detection
      ⟨2, 2, [255, 255, 255, 255, 200, 100, 84, 255, 128, 128, 128, 255, 0, 255, 129, 255]⟩
      (by decide) (by decide)).2.2.2.1,
    ((no_dark_pixel_no_detection
      ⟨2, 2, [255, 255, 255, 255, 200, 100, 84, 255, 128, 128, 128, 255, 0, 255, 129, 255]⟩
      (by decide) (by decide)).2.2.2.2 ⟨true, true, none, [], []⟩ 1700000000000
      1700000000000).1⟩

end QRScanner
